import Mathlib

/-! The `broadcast_msg` sample client.

A shallow embedding of `orderer/sample_clients/broadcast_msg/client.go`:

* the rounding arithmetic of `main` (lines 94-98) over `uint64`, modelled as
  `Nat` with an explicit reduction modulo `2 ^ 64`;
* `broadcastClient.getAck` (lines 49-58) and `broadcastClient.broadcast`
  (lines 40-47) as functions of the outcome of the stream call they make;
* the session goroutine of `main` (lines 105-133) together with its inner
  receive goroutine (lines 115-123) as a two-thread step machine driven by an
  explicit schedule; `time.Sleep` calls carry no state and are left out;
* the `sync.WaitGroup` of `main` (lines 102-103, 130, 136), whose counter is
  an `int32`, and the process made of `main` and all session goroutines.

What the remote endpoint answers is given call by call by a `Stream`. A call
returns as soon as its goroutine is scheduled, so the schedules quantified over
in the theorems include every order in which the calls of a real run can
return.
-/

namespace BroadcastMsg

/-! ## Rounding arithmetic of `main` -/

/-- The number of values of a Go `uint64`. -/
def uint64Size : Nat := 2 ^ 64

/-- A Go run-time panic, by cause. -/
inductive Panic where
  | divideByZero
  | negativeWaitGroupCounter
  deriving DecidableEq, Repr

/-- Lines 94-98 of `main`: the values computed and the notice printed. -/
structure Rounding where
  msgsPerGo : Nat
  roundMsgs : Nat
  /-- The value printed by `fmt.Println("Rounding messages to", roundMsgs)`, if printed. -/
  notice : Option Nat
  deriving DecidableEq, Repr

/-- Line 94, `messages / goroutines` on `uint64`: integer division, which
panics at run time when the divisor is zero. -/
def msgsPerGo (messages goroutines : Nat) : Except Panic Nat :=
  if goroutines = 0 then .error .divideByZero else .ok (messages / goroutines)

/-- Line 95, `msgsPerGo * goroutines` on `uint64`: the product wraps modulo `2 ^ 64`. -/
def roundMsgs (perGo goroutines : Nat) : Nat :=
  (perGo * goroutines) % uint64Size

/-- Lines 94-98 of `main`. A result `.ok r` means control reaches line 100. -/
def rounding (messages goroutines : Nat) : Except Panic Rounding :=
  match msgsPerGo messages goroutines with
  | .error p => .error p
  | .ok perGo =>
    let round := roundMsgs perGo goroutines
    .ok { msgsPerGo := perGo
          roundMsgs := round
          notice := if round ≠ messages then some round else none }

/-- Lines 104-134 of `main`: the loop starts one goroutine for each
`i` in `[0, goroutines)`; every closure captures the same `msgsPerGo`, which
bounds both of its loops (lines 116 and 124). The result lists, by `i`, the
pair of the goroutine's index and its message count. -/
def spawnLoop (goroutines perGo : Nat) : List (Nat × Nat) :=
  (List.range goroutines).map fun i => (i, perGo)

/-! ## Stream messages and errors -/

/-- A Go `error` value, identified by the text of its `Error()` method. -/
structure GoError where
  text : String
  deriving DecidableEq, Repr

/-- `cb.Status` is an `int32` enumeration of the `protos/common` package. -/
abbrev Status := Int

/-- `ab.BroadcastResponse`: the fields `getAck` reads. -/
structure BroadcastResponse where
  Status : Status
  Info : String
  deriving DecidableEq, Repr

/-- What `client.go` uses of the generated package `cb` (`protos/common`),
which is outside this file: the constant `cb.Status_SUCCESS` and the text
that `%v` prints for a `cb.Status` (its `String()` method). -/
structure CommonProtos where
  Status_SUCCESS : Status
  statusString : Status → String

/-- `fmt.Errorf("Got unexpected status: %v - %s", status, info)` (line 55). -/
def errorfUnexpectedStatus (cb : CommonProtos) (status : Status) (info : String) : GoError :=
  ⟨"Got unexpected status: " ++ cb.statusString status ++ " - " ++ info⟩

/-- `broadcastClient.getAck` (lines 49-58), as a function of what
`s.client.Recv()` returned; `none` is Go's `nil` error. -/
def getAck (cb : CommonProtos) (recv : Except GoError BroadcastResponse) : Option GoError :=
  match recv with
  | .error err => some err
  | .ok msg =>
    if msg.Status ≠ cb.Status_SUCCESS then
      some (errorfUnexpectedStatus cb msg.Status msg.Info)
    else
      none

/-- A signed `cb.Envelope`, as far as the client is concerned: the channel it
is addressed to and the data it carries. -/
structure Envelope where
  chainID : String
  data : List Nat
  deriving DecidableEq, Repr

/-- Modelled from the spec: `utils.CreateSignedEnvelope` of package
`protos/utils`, which is outside this file. It is the Envelope Builder of the
specification, section 6: `build(payload, sessionContext) -> envelopeBytes`,
"assumed infallible at this layer". -/
def CreateSignedEnvelope (chainID : String) (transaction : List Nat) :
    Except GoError Envelope :=
  .ok { chainID := chainID, data := transaction }

/-- How a call of `broadcastClient.broadcast` ends. -/
inductive BroadcastResult where
  /-- Line 43, `panic(err)`: `Send` was not called. -/
  | panicked (err : GoError)
  /-- Line 46: `Send` was called and `broadcast` returns what it returned. -/
  | returned (err : Option GoError)
  deriving DecidableEq, Repr

/-- `broadcastClient.broadcast` (lines 40-47), as a function of what
`s.client.Send` answers for an envelope. -/
def broadcast (send : Envelope → Option GoError) (chainID : String)
    (transaction : List Nat) : BroadcastResult :=
  match CreateSignedEnvelope chainID transaction with
  | .error err => .panicked err
  | .ok env => .returned (send env)

/-! ## One session: the goroutine of lines 105-133 and its receive goroutine -/

/-- What the remote endpoint answers to one session, call by call. -/
structure Stream where
  /-- The `err` of `Broadcast(context.TODO())` (line 106). -/
  connect : Option GoError
  /-- The answer to the `k`-th `client.Send` of the session (line 46). -/
  send : Nat → Envelope → Option GoError
  /-- The answer to the `k`-th `client.Recv` of the session (line 50). -/
  recv : Nat → Except GoError BroadcastResponse

/-- The variables of `main` that a session goroutine captures. -/
structure Config where
  cb : CommonProtos
  chainID : String
  msgData : List Nat
  msgsPerGo : Nat

/-- The calls and outputs of a session, in the order they happen. -/
inductive Event where
  /-- Line 106: the stream is requested. -/
  | broadcastOpen
  /-- Line 109: `fmt.Println("Error connecting:", err)`. -/
  | printConnErr (err : GoError)
  /-- Line 46: the `k`-th call of `client.Send`. -/
  | send (k : Nat)
  /-- Line 50: the `k`-th call of `client.Recv`. -/
  | recv (k : Nat)
  /-- Line 120: `fmt.Printf` of the receive error. -/
  | printErr (err : GoError)
  /-- Line 122: `close(done)`. -/
  | closeDone
  /-- Line 130: `wg.Done()`. -/
  | wgDone
  /-- Line 131: `client.CloseSend()`. -/
  | closeSend
  /-- Line 132: `fmt.Println("Go routine", i, "exiting")`. -/
  | printExit
  /-- Lines 43 and 126: `panic(err)`, which aborts the process. -/
  | panicked (err : GoError)
  deriving DecidableEq, Repr

/-- Control points of the session goroutine (lines 105-133). -/
inductive OuterPc where
  /-- Before line 106. -/
  | connect
  /-- At line 108, `if err != nil`. -/
  | checkErr
  /-- At line 124, the loop test with index `i`. -/
  | sendLoop (i : Nat)
  /-- At line 125, `broadcast` of index `i` has returned `err`. -/
  | sendCheck (i : Nat) (err : Option GoError)
  /-- At line 129, `<-done`. -/
  | waitDone
  /-- Before line 130. -/
  | wgDone
  /-- Before line 131. -/
  | closeSend
  /-- Before line 132. -/
  | printExit
  /-- The goroutine ran to the end of its function. -/
  | exited
  /-- The goroutine returned at line 110. -/
  | returned
  /-- The goroutine panicked (line 43 or 126). -/
  | panicked (err : GoError)
  deriving DecidableEq, Repr

/-- Control points of the receive goroutine (lines 115-123). -/
inductive RecvPc where
  /-- The `go` statement of line 115 has not run. -/
  | notStarted
  /-- At line 116, the loop test with index `i`. -/
  | loop (i : Nat)
  /-- At line 119, `if err != nil`. -/
  | check
  /-- Before line 122. -/
  | closeDone
  /-- The goroutine ran to the end of its function. -/
  | finished
  deriving DecidableEq, Repr

/-- The state of one session. -/
structure Session where
  outer : OuterPc
  receiver : RecvPc
  /-- The variable `err` declared at line 106 and assigned at line 117. -/
  err : Option GoError
  /-- Whether the channel `done` of line 114 is closed. -/
  doneClosed : Bool
  trace : List Event
  deriving DecidableEq, Repr

/-- A session goroutine that has just been started by line 105. -/
def Session.init : Session :=
  { outer := .connect, receiver := .notStarted, err := none, doneClosed := false, trace := [] }

/-- One step of the session goroutine; a step that cannot be taken (the
goroutine has ended, the process is aborted, or `<-done` blocks) leaves the
state as it is. -/
def stepOuter (c : Config) (w : Stream) (s : Session) : Session :=
  match s.outer with
  | .connect =>
    { s with outer := .checkErr, err := w.connect, trace := s.trace ++ [.broadcastOpen] }
  | .checkErr =>
    match s.err with
    | some err => { s with outer := .returned, trace := s.trace ++ [.printConnErr err] }
    | none => { s with outer := .sendLoop 0, receiver := .loop 0 }
  | .sendLoop i =>
    if i < c.msgsPerGo then
      match broadcast (w.send i) c.chainID c.msgData with
      | .panicked err => { s with outer := .panicked err, trace := s.trace ++ [.panicked err] }
      | .returned err => { s with outer := .sendCheck i err, trace := s.trace ++ [.send i] }
    else
      { s with outer := .waitDone }
  | .sendCheck i err =>
    match err with
    | some e => { s with outer := .panicked e, trace := s.trace ++ [.panicked e] }
    | none => { s with outer := .sendLoop (i + 1) }
  | .waitDone => if s.doneClosed then { s with outer := .wgDone } else s
  | .wgDone => { s with outer := .closeSend, trace := s.trace ++ [.wgDone] }
  | .closeSend => { s with outer := .printExit, trace := s.trace ++ [.closeSend] }
  | .printExit => { s with outer := .exited, trace := s.trace ++ [.printExit] }
  | .exited => s
  | .returned => s
  | .panicked _ => s

/-- One step of the receive goroutine; it takes no step before it is started,
after it has ended, or once the process is aborted by a panic. -/
def stepReceiver (c : Config) (w : Stream) (s : Session) : Session :=
  match s.outer with
  | .panicked _ => s
  | _ =>
    match s.receiver with
    | .notStarted => s
    | .loop i =>
      if i < c.msgsPerGo then
        { s with receiver := .loop (i + 1), err := getAck c.cb (w.recv i),
                 trace := s.trace ++ [.recv i] }
      else
        { s with receiver := .check }
    | .check =>
      match s.err with
      | some err => { s with receiver := .closeDone, trace := s.trace ++ [.printErr err] }
      | none => { s with receiver := .closeDone }
    | .closeDone =>
      { s with receiver := .finished, doneClosed := true, trace := s.trace ++ [.closeDone] }
    | .finished => s

/-- The two goroutines of a session. -/
inductive Thread where
  | outer
  | receiver
  deriving DecidableEq, Repr

/-- One step of the session by the goroutine the scheduler picked. -/
def step (c : Config) (w : Stream) (s : Session) (t : Thread) : Session :=
  match t with
  | .outer => stepOuter c w s
  | .receiver => stepReceiver c w s

/-- The session after the scheduler has picked the goroutines of `sched` in turn. -/
def run (c : Config) (w : Stream) (sched : List Thread) (s : Session) : Session :=
  sched.foldl (step c w) s

/-- The number of `client.Send` calls in a trace. -/
def sendCount (tr : List Event) : Nat :=
  tr.countP fun e => match e with | .send _ => true | _ => false

/-- The number of `client.Recv` calls in a trace. -/
def recvCount (tr : List Event) : Nat :=
  tr.countP fun e => match e with | .recv _ => true | _ => false

/-- The errors printed by line 120, in order. -/
def reportedErrors (tr : List Event) : List GoError :=
  tr.filterMap fun e => match e with | .printErr err => some err | _ => none

/-- The number of `client.CloseSend()` calls (line 131) in a trace. -/
def closeSendCount (tr : List Event) : Nat :=
  tr.count .closeSend

/-- The number of `wg.Done()` calls in a trace. -/
def wgDoneCount (tr : List Event) : Nat :=
  tr.count .wgDone

/-- Whether the goroutine of a session has panicked, which aborts the process. -/
def Session.aborted (s : Session) : Bool :=
  match s.outer with
  | .panicked _ => true
  | _ => false

/-! ## The process: `main`, its `sync.WaitGroup` and all sessions -/

/-- `int(goroutines)` of line 103, for Go's 64-bit `int`: the conversion keeps
the bits, so values from `2 ^ 63` on become negative. (With a 32-bit `int` the
conversion keeps the low 32 bits, which are all that `wgAdd` reads.) -/
def intOfUint64 (n : Nat) : Int :=
  if n % uint64Size < 2 ^ 63 then ((n % uint64Size : Nat) : Int)
  else ((n % uint64Size : Nat) : Int) - 2 ^ 64

/-- The `int32` with the low 32 bits of `x`. -/
def int32Wrap (x : Int) : Int :=
  if x % 2 ^ 32 < 2 ^ 31 then x % 2 ^ 32 else x % 2 ^ 32 - 2 ^ 32

/-- `wg.Add(delta)` on a `sync.WaitGroup` with the given counter. The counter
is an `int32` kept in the high half of a 64-bit word to which
`uint64(delta) << 32` is added, so only the low 32 bits of `delta` count and the
sum wraps; `Add` panics when the new counter is negative. `wg.Done()` is
`wg.Add(-1)`. -/
def wgAdd (counter delta : Int) : Except Panic Int :=
  if int32Wrap (counter + delta) < 0 then .error .negativeWaitGroupCounter
  else .ok (int32Wrap (counter + delta))

/-- The state of the process after line 103. -/
structure Process where
  /-- The counter of the `sync.WaitGroup` `wg`, an `int32`. -/
  wg : Int
  /-- The session goroutines, by the index `i` of line 104. -/
  sessions : List Session
  /-- Whether `wg.Wait()` (line 136) has returned, after which `main` returns
  and the process ends. -/
  waitReturned : Bool
  /-- Whether some goroutine has panicked, which ends the process. -/
  aborted : Bool
  deriving DecidableEq, Repr

/-- Function `main` from line 94 up to its `wg.Wait()`: the rounding,
`wg.Add(int(goroutines))` and the start of one goroutine per index. The result
gives the message count that every goroutine captures and the process that
then runs; `wg.Wait()` itself is the step of `Goroutine.main` in `stepProcess`. -/
def main (messages goroutines : Nat) : Except Panic (Nat × Process) :=
  match rounding messages goroutines with
  | .error p => .error p
  | .ok r =>
    match wgAdd 0 (intOfUint64 goroutines) with
    | .error p => .error p
    | .ok counter =>
      .ok (r.msgsPerGo,
        { wg := counter
          sessions := (spawnLoop goroutines r.msgsPerGo).map fun _ => Session.init
          waitReturned := false
          aborted := false })

/-- The goroutines of the process: `main`, blocked in `wg.Wait()`, and the two
goroutines of each session. -/
inductive Goroutine where
  | main
  | session (i : Nat) (t : Thread)
  deriving DecidableEq, Repr

/-- One step of the process by the goroutine the scheduler picked. Nothing
runs once `main` has returned or a goroutine has panicked. The step of a
session goroutine at line 130 is `wg.Done()`, which lowers the counter. -/
def stepProcess (c : Config) (ws : Nat → Stream) (p : Process) (g : Goroutine) : Process :=
  if p.waitReturned || p.aborted then p
  else
    match g with
    | .main => if p.wg = 0 then { p with waitReturned := true } else p
    | .session i t =>
      match p.sessions[i]? with
      | none => p
      | some s =>
        let s1 := step c (ws i) s t
        if s.outer = .wgDone ∧ t = .outer then
          match wgAdd p.wg (-1) with
          | .error _ => { p with aborted := true }
          | .ok counter => { p with wg := counter, sessions := p.sessions.set i s1 }
        else
          { p with sessions := p.sessions.set i s1, aborted := s1.aborted }

/-- The process after the scheduler has picked the goroutines of `sched` in turn. -/
def runProcess (c : Config) (ws : Nat → Stream) (sched : List Goroutine) (p : Process) :
    Process :=
  sched.foldl (stepProcess c ws) p

/-! ## The invariant of a session -/

/-- The value of the variable `err` after `i` rounds of the loop of line 116,
in a session whose stream opened. -/
def errAfter (c : Config) (w : Stream) : Nat → Option GoError
  | 0 => none
  | i + 1 => getAck c.cb (w.recv i)

/-- The envelope that every `broadcast` call of a session builds. -/
def envelopeOf (c : Config) : Envelope :=
  { chainID := c.chainID, data := c.msgData }

/-- What holds of a session, by the control point of its receive goroutine. -/
def RecvInv (c : Config) (w : Stream) (s : Session) : Prop :=
  match s.receiver with
  | .notStarted =>
    recvCount s.trace = 0 ∧ s.doneClosed = false ∧ reportedErrors s.trace = [] ∧
      Event.closeDone ∉ s.trace ∧
      (s.outer = .connect ∨ s.outer = .checkErr ∨ s.outer = .returned)
  | .loop i =>
    i ≤ c.msgsPerGo ∧ recvCount s.trace = i ∧ s.doneClosed = false ∧
      reportedErrors s.trace = [] ∧ Event.closeDone ∉ s.trace ∧ s.err = errAfter c w i ∧
      (∀ j, j < i → Event.recv j ∈ s.trace)
  | .check =>
    recvCount s.trace = c.msgsPerGo ∧ s.doneClosed = false ∧
      reportedErrors s.trace = [] ∧ Event.closeDone ∉ s.trace ∧
      s.err = errAfter c w c.msgsPerGo ∧
      (∀ j, j < c.msgsPerGo → Event.recv j ∈ s.trace)
  | .closeDone =>
    recvCount s.trace = c.msgsPerGo ∧ s.doneClosed = false ∧
      Event.closeDone ∉ s.trace ∧
      reportedErrors s.trace = (errAfter c w c.msgsPerGo).toList ∧
      (∀ j, j < c.msgsPerGo → Event.recv j ∈ s.trace)
  | .finished =>
    recvCount s.trace = c.msgsPerGo ∧ s.doneClosed = true ∧
      Event.closeDone ∈ s.trace ∧
      reportedErrors s.trace = (errAfter c w c.msgsPerGo).toList ∧
      (∀ j, j < c.msgsPerGo → Event.recv j ∈ s.trace)

/-- What holds of the trace of a session when its goroutine reaches line 131. -/
def BeforeCloseSend (c : Config) (tr : List Event) : Prop :=
  closeSendCount tr = 0 ∧ recvCount tr = c.msgsPerGo ∧ sendCount tr = c.msgsPerGo ∧
    Event.closeDone ∈ tr ∧ wgDoneCount tr = 1

/-- What holds of a session, by the control point of its goroutine. -/
def OuterInv (c : Config) (w : Stream) (s : Session) : Prop :=
  match s.outer with
  | .connect =>
    s.receiver = .notStarted ∧ s.trace = []
  | .checkErr =>
    s.receiver = .notStarted ∧ s.trace = [.broadcastOpen] ∧ s.err = w.connect
  | .returned =>
    s.receiver = .notStarted ∧ (∃ err, w.connect = some err ∧
      s.trace = [.broadcastOpen, .printConnErr err])
  | .sendLoop i =>
    i ≤ c.msgsPerGo ∧ sendCount s.trace = i ∧ closeSendCount s.trace = 0 ∧
      wgDoneCount s.trace = 0 ∧ w.connect = none ∧
      (∀ j, j < i → w.send j (envelopeOf c) = none)
  | .sendCheck i err =>
    i < c.msgsPerGo ∧ sendCount s.trace = i + 1 ∧ closeSendCount s.trace = 0 ∧
      wgDoneCount s.trace = 0 ∧ w.connect = none ∧
      (∀ j, j < i → w.send j (envelopeOf c) = none) ∧ err = w.send i (envelopeOf c)
  | .waitDone =>
    sendCount s.trace = c.msgsPerGo ∧ closeSendCount s.trace = 0 ∧
      wgDoneCount s.trace = 0 ∧ w.connect = none ∧
      (∀ j, j < c.msgsPerGo → w.send j (envelopeOf c) = none)
  | .wgDone =>
    s.receiver = .finished ∧
    sendCount s.trace = c.msgsPerGo ∧ closeSendCount s.trace = 0 ∧
      wgDoneCount s.trace = 0 ∧ w.connect = none ∧
      (∀ j, j < c.msgsPerGo → w.send j (envelopeOf c) = none)
  | .closeSend =>
    s.receiver = .finished ∧ BeforeCloseSend c s.trace ∧ w.connect = none ∧
      (∀ j, j < c.msgsPerGo → w.send j (envelopeOf c) = none)
  | .printExit =>
    s.receiver = .finished ∧ w.connect = none ∧
      (∀ j, j < c.msgsPerGo → w.send j (envelopeOf c) = none) ∧
      ∃ pre, s.trace = pre ++ [.closeSend] ∧ BeforeCloseSend c pre
  | .exited =>
    s.receiver = .finished ∧ w.connect = none ∧
      (∀ j, j < c.msgsPerGo → w.send j (envelopeOf c) = none) ∧
      ∃ pre, s.trace = pre ++ [.closeSend, .printExit] ∧ BeforeCloseSend c pre
  | .panicked err =>
    closeSendCount s.trace = 0 ∧ wgDoneCount s.trace = 0 ∧ w.connect = none ∧
      ∃ k, k < c.msgsPerGo ∧ sendCount s.trace = k + 1 ∧
        w.send k (envelopeOf c) = some err ∧
        (∀ j, j < k → w.send j (envelopeOf c) = none)

/-- The invariant of a session. -/
def Inv (c : Config) (w : Stream) (s : Session) : Prop :=
  RecvInv c w s ∧ OuterInv c w s

/-- The steps the receive goroutine still has to take before it has ended. -/
def receiverRemaining (c : Config) : RecvPc → Nat
  | .notStarted => 0
  | .loop i => c.msgsPerGo - i + 3
  | .check => 2
  | .closeDone => 1
  | .finished => 0

/-- The number of steps the session goroutine has taken when it is at a control
point it reached without a failure. -/
def outerRank (c : Config) : OuterPc → Nat
  | .connect => 0
  | .checkErr => 1
  | .sendLoop i => 2 + 2 * i
  | .sendCheck i _ => 3 + 2 * i
  | .waitDone => 2 * c.msgsPerGo + 3
  | .wgDone => 2 * c.msgsPerGo + 4
  | .closeSend => 2 * c.msgsPerGo + 5
  | .printExit => 2 * c.msgsPerGo + 6
  | .exited => 2 * c.msgsPerGo + 7
  | .returned => 0
  | .panicked _ => 0

/-- The number of `wg.Done()` calls made so far by the sessions of a process. -/
def Process.doneCalls (p : Process) : Nat :=
  (p.sessions.map fun s => wgDoneCount s.trace).sum

/-- The invariant of a process that `main` started with `goroutines` sessions:
every session satisfies its own invariant, the counter of the wait group is
`goroutines` less the `wg.Done()` calls made, and `wg.Wait()` has returned only
at the counter zero. -/
def ProcInv (c : Config) (ws : Nat → Stream) (goroutines : Nat) (p : Process) : Prop :=
  p.sessions.length = goroutines ∧
    (∀ j s, p.sessions[j]? = some s → Inv c (ws j) s) ∧
    p.wg + (p.doneCalls : Int) = (goroutines : Int) ∧
    (p.waitReturned = true → p.wg = 0)

/-! ## Concrete inputs -/

/-- The text `%v` prints for a `cb.Status`: its name in the generated table
`Status_name` of package `protos/common`, or its number when it has none. -/
def statusName (s : Status) : String :=
  if s = 0 then "UNKNOWN"
  else if s = 200 then "SUCCESS"
  else if s = 400 then "BAD_REQUEST"
  else if s = 403 then "FORBIDDEN"
  else if s = 404 then "NOT_FOUND"
  else if s = 413 then "REQUEST_ENTITY_TOO_LARGE"
  else if s = 500 then "INTERNAL_SERVER_ERROR"
  else if s = 503 then "SERVICE_UNAVAILABLE"
  else toString s

/-- The package `cb` as generated for the repository: `Status_SUCCESS = 200`
and statuses printed by name. -/
def cbFabric : CommonProtos :=
  { Status_SUCCESS := 200, statusString := statusName }

/-- A session configuration with the given message count. -/
def configOf (perGo : Nat) : Config :=
  { cb := cbFabric, chainID := "testchainid", msgData := [0, 0], msgsPerGo := perGo }

/-- A stream on which every call succeeds. -/
def streamOk : Stream :=
  { connect := none, send := fun _ _ => none, recv := fun _ => .ok ⟨200, ""⟩ }

/-- A stream whose first `Recv` fails and whose later ones succeed. -/
def streamRecvFailsFirst : Stream :=
  { streamOk with recv := fun k => if k = 0 then .error ⟨"EOF"⟩ else .ok ⟨200, ""⟩ }

/-- A stream whose first response is a rejection and whose later ones succeed. -/
def streamRejectsFirst : Stream :=
  { streamOk with recv := fun k => if k = 0 then .ok ⟨400, "bad"⟩ else .ok ⟨200, ""⟩ }

/-- A stream whose first `Send` fails. -/
def streamSendFailsFirst : Stream :=
  { streamOk with send := fun k _ => if k = 0 then some ⟨"send failed"⟩ else none }

/-- A stream that cannot be opened. -/
def streamNoConnect : Stream :=
  { streamOk with connect := some ⟨"connection refused"⟩ }

/-- A schedule that lets the session goroutine send everything, then the
receive goroutine drain everything, then the session goroutine finish. -/
def sendThenReceive (perGo : Nat) : List Thread :=
  List.replicate (2 * perGo + 3) .outer ++ List.replicate (perGo + 3) .receiver
    ++ List.replicate 4 .outer

/-- The streams of a process in which the first `Send` of session 0 fails and
every other call succeeds. -/
def streamsSendFailsAt0 (i : Nat) : Stream :=
  if i = 0 then streamSendFailsFirst else streamOk

/-- The streams of a process in which the stream of session 1 cannot be opened
and every other call succeeds. -/
def streamsNoConnectAt1 (i : Nat) : Stream :=
  if i = 1 then streamNoConnect else streamOk

/-- The process that `main` starts for `goroutines` sessions of `perGo`
messages each, when `wg.Add` does not panic. -/
def processOf (goroutines perGo : Nat) : Process :=
  { wg := int32Wrap (intOfUint64 goroutines)
    sessions := (spawnLoop goroutines perGo).map fun _ => Session.init
    waitReturned := false
    aborted := false }

/-- The schedule of a process that runs the given schedule in session `i`. -/
def inSession (i : Nat) (sched : List Thread) : List Goroutine :=
  sched.map (Goroutine.session i)

/-! ## Theorems -/

/-! ### Rounding and `getAck` -/

theorem uint64_mul_div_lt {messages goroutines : Nat} (hm : messages < uint64Size) :
    messages / goroutines * goroutines < uint64Size :=
  lt_of_le_of_lt (Nat.div_mul_le_self messages goroutines) hm

theorem roundMsgs_div_eq {messages goroutines : Nat} (hm : messages < uint64Size) :
    roundMsgs (messages / goroutines) goroutines = messages / goroutines * goroutines := by
  unfold roundMsgs
  exact Nat.mod_eq_of_lt (uint64_mul_div_lt hm)

theorem spawnLoop_sum (goroutines perGo : Nat) :
    ((spawnLoop goroutines perGo).map Prod.snd).sum = perGo * goroutines := by
  unfold spawnLoop
  induction goroutines with
  | zero => simp
  | succ n ih =>
    rw [List.range_succ, List.map_append, List.map_append, List.sum_append, ih]
    simp [Nat.mul_succ]

theorem rounding_ok {messages goroutines : Nat} (hm : messages < uint64Size)
    (hpos : 1 ≤ goroutines) :
    rounding messages goroutines = .ok
      { msgsPerGo := messages / goroutines
        roundMsgs := messages / goroutines * goroutines
        notice := if messages / goroutines * goroutines ≠ messages
          then some (messages / goroutines * goroutines) else none } := by
  have hg : goroutines ≠ 0 := by omega
  simp only [rounding, msgsPerGo, if_neg hg, roundMsgs_div_eq hm]

/-- C2: for `goroutines ≥ 1`, lines 94-98 of `main` print the notice exactly
when `goroutines` does not divide `messages`, the value printed is
`(messages / goroutines) * goroutines`, and in both cases control goes on to
line 100 (the result is `.ok`, not a panic). -/
theorem rounding_notice (messages goroutines : Nat)
    (hm : messages < uint64Size) (hpos : 1 ≤ goroutines) :
    ∃ r, rounding messages goroutines = .ok r ∧
      (r.notice ≠ none ↔ ¬ goroutines ∣ messages) ∧
      (∀ v, r.notice = some v → v = messages / goroutines * goroutines) ∧
      (¬ goroutines ∣ messages → r.notice = some (messages / goroutines * goroutines)) ∧
      (goroutines ∣ messages → r.notice = none) := by
  have hdvd : messages / goroutines * goroutines = messages ↔ goroutines ∣ messages :=
    ⟨fun h => ⟨messages / goroutines, by rw [Nat.mul_comm]; exact h.symm⟩,
     fun h => Nat.div_mul_cancel h⟩
  refine ⟨_, rounding_ok hm hpos, ?_, ?_, ?_, ?_⟩
  · by_cases h : goroutines ∣ messages
    · simp [hdvd.mpr h, h]
    · have : messages / goroutines * goroutines ≠ messages := fun e => h (hdvd.mp e)
      simp [this, h]
  · intro v hv
    by_cases h : messages / goroutines * goroutines = messages
    · simp [h] at hv
    · simp only [ne_eq, h, not_false_eq_true, if_true, Option.some.injEq] at hv
      exact hv.symm
  · intro h
    have : messages / goroutines * goroutines ≠ messages := fun e => h (hdvd.mp e)
    simp [this]
  · intro h
    simp [hdvd.mpr h]

theorem rounding_notice_witness :
    ∃ r, rounding 10 4 = .ok r ∧
      (r.notice ≠ none ↔ ¬ 4 ∣ 10) ∧
      (∀ v, r.notice = some v → v = 10 / 4 * 4) ∧
      (¬ 4 ∣ 10 → r.notice = some (10 / 4 * 4)) ∧
      (4 ∣ 10 → r.notice = none) :=
  rounding_notice 10 4 (by decide) (by decide)

theorem errorfUnexpectedStatus_text (cb : CommonProtos) (status : Status) (info : String) :
    (errorfUnexpectedStatus cb status info).text.data
      = "Got unexpected status: ".data ++ (cb.statusString status).data ++ " - ".data
          ++ info.data := by
  simp [errorfUnexpectedStatus, String.data_append]

/-- C3: `getAck` returns an error exactly when `Recv` failed or the response's
status is not `SUCCESS`; a `Recv` error is returned as it is, a response that is
not `SUCCESS` gives an error whose text contains both the printed status and the
response's `Info`, and a `SUCCESS` response gives `nil`. -/
theorem getAck_result (cb : CommonProtos) (recv : Except GoError BroadcastResponse) :
    (getAck cb recv ≠ none ↔
      (∃ err, recv = .error err) ∨ (∃ msg, recv = .ok msg ∧ msg.Status ≠ cb.Status_SUCCESS)) ∧
    (∀ err, recv = .error err → getAck cb recv = some err) ∧
    (∀ msg, recv = .ok msg → msg.Status ≠ cb.Status_SUCCESS →
      ∃ err, getAck cb recv = some err ∧
        (cb.statusString msg.Status).data <:+: err.text.data ∧
        msg.Info.data <:+: err.text.data) ∧
    (∀ msg, recv = .ok msg → msg.Status = cb.Status_SUCCESS → getAck cb recv = none) := by
  refine ⟨?_, ?_, ?_, ?_⟩
  · cases recv with
    | error err => simp [getAck]
    | ok msg =>
      by_cases h : msg.Status = cb.Status_SUCCESS <;> simp [getAck, h]
  · rintro err rfl
    rfl
  · rintro msg rfl h
    refine ⟨errorfUnexpectedStatus cb msg.Status msg.Info, by simp [getAck, h], ?_, ?_⟩
    · rw [errorfUnexpectedStatus_text]
      exact ⟨"Got unexpected status: ".data, " - ".data ++ msg.Info.data, by simp⟩
    · rw [errorfUnexpectedStatus_text]
      exact ⟨"Got unexpected status: ".data ++ (cb.statusString msg.Status).data ++ " - ".data,
        [], by simp⟩
  · rintro msg rfl h
    simp [getAck, h]

/-- C10: on `uint64` values with `goroutines ≥ 1` the wrapping product
`roundMsgs` is the mathematical product `(messages / goroutines) * goroutines`,
is at most `messages`, and falls short of it by `messages % goroutines`, which is
less than `goroutines`; when `messages < goroutines` every session gets the count
zero; and the division panics exactly when `goroutines = 0`. -/
theorem roundMsgs_exact (messages goroutines : Nat)
    (hm : messages < uint64Size) :
    ((∃ p, msgsPerGo messages goroutines = .error p) ↔ goroutines = 0) ∧
    (1 ≤ goroutines →
      msgsPerGo messages goroutines = .ok (messages / goroutines) ∧
      roundMsgs (messages / goroutines) goroutines = messages / goroutines * goroutines ∧
      messages / goroutines * goroutines < uint64Size ∧
      roundMsgs (messages / goroutines) goroutines ≤ messages ∧
      messages - roundMsgs (messages / goroutines) goroutines = messages % goroutines ∧
      messages % goroutines < goroutines ∧
      (messages < goroutines →
        ∀ p ∈ spawnLoop goroutines (messages / goroutines), p.2 = 0)) := by
  constructor
  · by_cases h : goroutines = 0 <;> simp [msgsPerGo, h]
  · intro hpos
    have hne : goroutines ≠ 0 := by omega
    have hdm := Nat.div_add_mod' messages goroutines
    refine ⟨by simp [msgsPerGo, hne], roundMsgs_div_eq hm, uint64_mul_div_lt hm, ?_, ?_,
      Nat.mod_lt _ (by omega), ?_⟩
    · rw [roundMsgs_div_eq hm]; exact Nat.div_mul_le_self _ _
    · rw [roundMsgs_div_eq hm]; omega
    · intro hlt p hp
      simp only [spawnLoop, List.mem_map] at hp
      obtain ⟨i, _, rfl⟩ := hp
      exact Nat.div_eq_of_lt hlt

theorem roundMsgs_exact_witness :
    ((∃ p, msgsPerGo 10 4 = .error p) ↔ 4 = 0) ∧
    (1 ≤ 4 →
      msgsPerGo 10 4 = .ok (10 / 4) ∧
      roundMsgs (10 / 4) 4 = 10 / 4 * 4 ∧
      10 / 4 * 4 < uint64Size ∧
      roundMsgs (10 / 4) 4 ≤ 10 ∧
      10 - roundMsgs (10 / 4) 4 = 10 % 4 ∧
      10 % 4 < 4 ∧
      (10 < 4 → ∀ p ∈ spawnLoop 4 (10 / 4), p.2 = 0)) :=
  roundMsgs_exact 10 4 (by decide)

/-! ### The wait group counter -/

theorem int32Wrap_of_range {x : Int} (h0 : 0 ≤ x) (h1 : x < 2 ^ 31) : int32Wrap x = x := by
  have hmod : x % 2 ^ 32 = x := Int.emod_eq_of_lt h0 (by omega)
  simp only [int32Wrap, hmod, if_pos h1]

theorem wgAdd_ok {counter delta : Int} (h0 : 0 ≤ counter + delta)
    (h1 : counter + delta < 2 ^ 31) : wgAdd counter delta = .ok (counter + delta) := by
  have hneg : ¬ counter + delta < 0 := by omega
  simp only [wgAdd, int32Wrap_of_range h0 h1, if_neg hneg]

theorem intOfUint64_wrap (n : Nat) (hn : n < uint64Size) :
    int32Wrap (intOfUint64 n)
      = if n % 2 ^ 32 < 2 ^ 31 then ((n % 2 ^ 32 : Nat) : Int)
        else ((n % 2 ^ 32 : Nat) : Int) - 2 ^ 32 := by
  have hmod : n % uint64Size = n := Nat.mod_eq_of_lt hn
  simp only [uint64Size] at hn hmod
  simp only [int32Wrap, intOfUint64, uint64Size, hmod]
  split <;> split <;> split <;> omega

theorem wgAdd_goroutines (n : Nat) (hn : n < uint64Size) :
    wgAdd 0 (intOfUint64 n)
      = if n % 2 ^ 32 < 2 ^ 31 then .ok ((n % 2 ^ 32 : Nat) : Int)
        else .error .negativeWaitGroupCounter := by
  simp only [wgAdd, Int.zero_add, intOfUint64_wrap n hn]
  by_cases h : n % 2 ^ 32 < 2 ^ 31
  · have hneg : ¬ ((n % 2 ^ 32 : Nat) : Int) < 0 := by omega
    simp only [if_pos h, if_neg hneg]
  · have hneg : ((n % 2 ^ 32 : Nat) : Int) - 2 ^ 32 < 0 := by omega
    simp only [if_neg h, if_pos hneg]

/-- Line 103 comes before the loop of line 104: at `goroutines = 2 ^ 31` with
`messages = 2 ^ 31` the rounding gives `msgsPerGo = 1` and `roundMsgs = 2 ^ 31`,
but `wg.Add(int(goroutines))` wraps the counter to a negative `int32` and
panics, so `main` starts no session and no session holds a count (C1). -/
theorem main_panics_before_spawn :
    1 ≤ 2 ^ 31 ∧
    rounding (2 ^ 31) (2 ^ 31) = .ok { msgsPerGo := 1, roundMsgs := 2 ^ 31, notice := none } ∧
    wgAdd 0 (intOfUint64 (2 ^ 31)) = .error .negativeWaitGroupCounter ∧
    main (2 ^ 31) (2 ^ 31) = .error .negativeWaitGroupCounter := by
  have hlt : ¬ (2 ^ 31 % 2 ^ 32 < 2 ^ 31) := by decide
  have h : wgAdd 0 (intOfUint64 (2 ^ 31)) = .error .negativeWaitGroupCounter := by
    rw [wgAdd_goroutines _ (by decide), if_neg hlt]
  have hr : rounding (2 ^ 31) (2 ^ 31)
      = .ok { msgsPerGo := 1, roundMsgs := 2 ^ 31, notice := none } := by
    simp [rounding, msgsPerGo, roundMsgs, uint64Size]
  refine ⟨by decide, hr, h, ?_⟩
  simp only [main, hr, h]

/-- C1, amended: for `uint64` values with `goroutines ≥ 1`, when
`wg.Add(int(goroutines))` of line 103 does not panic, that is when
`goroutines % 2 ^ 32 < 2 ^ 31`, `main` starts `goroutines` sessions that all
capture the count `messages / goroutines`; the counts sum to
`(messages / goroutines) * goroutines`, which is `roundMsgs`, and the sum falls
short of `messages` by the remainder `messages % goroutines`, which no session
receives. For the other values of `goroutines` `main` panics at line 103 before
it starts a session. -/
theorem main_session_counts (messages goroutines : Nat)
    (hm : messages < uint64Size) (hg : goroutines < uint64Size) (hpos : 1 ≤ goroutines) :
    (goroutines % 2 ^ 32 < 2 ^ 31 →
      ∃ r p, rounding messages goroutines = .ok r ∧
        main messages goroutines = .ok (r.msgsPerGo, p) ∧
        r.msgsPerGo = messages / goroutines ∧
        p.wg = ((goroutines % 2 ^ 32 : Nat) : Int) ∧
        p.waitReturned = false ∧ p.aborted = false ∧
        p.sessions = (spawnLoop goroutines r.msgsPerGo).map (fun _ => Session.init) ∧
        p.sessions.length = goroutines ∧
        (∀ q ∈ spawnLoop goroutines r.msgsPerGo, q.2 = messages / goroutines) ∧
        ((spawnLoop goroutines r.msgsPerGo).map Prod.snd).sum
          = messages / goroutines * goroutines ∧
        ((spawnLoop goroutines r.msgsPerGo).map Prod.snd).sum = r.roundMsgs ∧
        ((spawnLoop goroutines r.msgsPerGo).map Prod.snd).sum + messages % goroutines
          = messages) ∧
    (2 ^ 31 ≤ goroutines % 2 ^ 32 →
      main messages goroutines = .error .negativeWaitGroupCounter) := by
  have hr := rounding_ok hm hpos
  have hadd := wgAdd_goroutines goroutines hg
  constructor
  · intro hlt
    rw [if_pos hlt] at hadd
    refine ⟨_, { wg := ((goroutines % 2 ^ 32 : Nat) : Int)
                 sessions := (spawnLoop goroutines (messages / goroutines)).map
                   fun _ => Session.init
                 waitReturned := false
                 aborted := false },
      hr, by simp only [main, hr, hadd], rfl, rfl, rfl, rfl, rfl, ?_, ?_, ?_, ?_, ?_⟩
    · simp [spawnLoop]
    · intro q hq
      simp only [spawnLoop, List.mem_map] at hq
      obtain ⟨i, _, rfl⟩ := hq
      rfl
    · exact spawnLoop_sum _ _
    · exact spawnLoop_sum _ _
    · rw [spawnLoop_sum]
      exact Nat.div_add_mod' messages goroutines
  · intro hge
    rw [if_neg (by omega)] at hadd
    simp only [main, hr, hadd]

theorem main_session_counts_witness :
    (4 % 2 ^ 32 < 2 ^ 31 →
      ∃ r p, rounding 10 4 = .ok r ∧
        main 10 4 = .ok (r.msgsPerGo, p) ∧
        r.msgsPerGo = 10 / 4 ∧
        p.wg = ((4 % 2 ^ 32 : Nat) : Int) ∧
        p.waitReturned = false ∧ p.aborted = false ∧
        p.sessions = (spawnLoop 4 r.msgsPerGo).map (fun _ => Session.init) ∧
        p.sessions.length = 4 ∧
        (∀ q ∈ spawnLoop 4 r.msgsPerGo, q.2 = 10 / 4) ∧
        ((spawnLoop 4 r.msgsPerGo).map Prod.snd).sum = 10 / 4 * 4 ∧
        ((spawnLoop 4 r.msgsPerGo).map Prod.snd).sum = r.roundMsgs ∧
        ((spawnLoop 4 r.msgsPerGo).map Prod.snd).sum + 10 % 4 = 10) ∧
    (2 ^ 31 ≤ 4 % 2 ^ 32 → main 10 4 = .error .negativeWaitGroupCounter) :=
  main_session_counts 10 4 (by decide) (by decide) (by decide)

/-! ### Every reachable state of a session satisfies the invariant -/

@[simp] theorem sendCount_append (a b : List Event) :
    sendCount (a ++ b) = sendCount a + sendCount b := by
  simp [sendCount, List.countP_append]

@[simp] theorem recvCount_append (a b : List Event) :
    recvCount (a ++ b) = recvCount a + recvCount b := by
  simp [recvCount, List.countP_append]

@[simp] theorem reportedErrors_append (a b : List Event) :
    reportedErrors (a ++ b) = reportedErrors a ++ reportedErrors b := by
  simp [reportedErrors, List.filterMap_append]

@[simp] theorem closeSendCount_append (a b : List Event) :
    closeSendCount (a ++ b) = closeSendCount a + closeSendCount b := by
  simp [closeSendCount]

@[simp] theorem wgDoneCount_append (a b : List Event) :
    wgDoneCount (a ++ b) = wgDoneCount a + wgDoneCount b := by
  simp [wgDoneCount]

@[simp] theorem sendCount_nil : sendCount [] = 0 := rfl
@[simp] theorem recvCount_nil : recvCount [] = 0 := rfl
@[simp] theorem reportedErrors_nil : reportedErrors [] = [] := rfl
@[simp] theorem closeSendCount_nil : closeSendCount [] = 0 := rfl
@[simp] theorem wgDoneCount_nil : wgDoneCount [] = 0 := rfl

@[simp] theorem sendCount_cons (e : Event) (tr : List Event) :
    sendCount (e :: tr) = (match e with | .send _ => 1 | _ => 0) + sendCount tr := by
  cases e <;> simp [sendCount, Nat.add_comm]

@[simp] theorem recvCount_cons (e : Event) (tr : List Event) :
    recvCount (e :: tr) = (match e with | .recv _ => 1 | _ => 0) + recvCount tr := by
  cases e <;> simp [recvCount, Nat.add_comm]

@[simp] theorem reportedErrors_cons (e : Event) (tr : List Event) :
    reportedErrors (e :: tr)
      = (match e with | .printErr err => [err] | _ => []) ++ reportedErrors tr := by
  cases e <;> simp [reportedErrors]

@[simp] theorem closeSendCount_cons (e : Event) (tr : List Event) :
    closeSendCount (e :: tr) = (match e with | .closeSend => 1 | _ => 0) + closeSendCount tr := by
  cases e <;> simp [closeSendCount, Nat.add_comm]

@[simp] theorem wgDoneCount_cons (e : Event) (tr : List Event) :
    wgDoneCount (e :: tr) = (match e with | .wgDone => 1 | _ => 0) + wgDoneCount tr := by
  cases e <;> simp [wgDoneCount, Nat.add_comm]

theorem inv_init (c : Config) (w : Stream) : Inv c w .init := by
  simp [Inv, RecvInv, OuterInv, Session.init]

theorem inv_stepReceiver (c : Config) (w : Stream) (s : Session) (h : Inv c w s) :
    Inv c w (stepReceiver c w s) := by
  obtain ⟨outer, receiver, err, doneClosed, trace⟩ := s
  obtain ⟨hr, ho⟩ := h
  cases receiver with
  | notStarted => cases outer <;> exact ⟨hr, ho⟩
  | finished => cases outer <;> exact ⟨hr, ho⟩
  | loop i =>
    by_cases hi : i < c.msgsPerGo
    · have h7 : ∀ j, j < i + 1 → Event.recv j ∈ trace ++ [Event.recv i] := by
        intro j hj
        rcases Nat.lt_succ_iff_lt_or_eq.mp hj with h | rfl
        · exact List.mem_append_left _ (hr.2.2.2.2.2.2 j h)
        · simp
      obtain ⟨h1, h2, h3, h4, h5, h6, h8⟩ := hr
      cases outer <;>
        simp_all [Inv, RecvInv, OuterInv, stepReceiver, BeforeCloseSend, errAfter] <;>
        omega
    · have : i = c.msgsPerGo := by
        have := hr.1
        omega
      subst this
      cases outer <;>
        simp_all [Inv, RecvInv, OuterInv, stepReceiver, BeforeCloseSend]
  | check =>
    have hE : errAfter c w c.msgsPerGo = err := hr.2.2.2.2.1.symm
    cases err <;> cases outer <;>
      simp only [Inv, RecvInv, OuterInv, stepReceiver, BeforeCloseSend, hE] at hr ho ⊢ <;>
      simp_all
  | closeDone =>
    cases outer <;>
      simp_all [Inv, RecvInv, OuterInv, stepReceiver, BeforeCloseSend]

theorem broadcast_eq (c : Config) (w : Stream) (i : Nat) :
    broadcast (w.send i) c.chainID c.msgData = .returned (w.send i (envelopeOf c)) := rfl

theorem inv_stepOuter (c : Config) (w : Stream) (s : Session) (h : Inv c w s) :
    Inv c w (stepOuter c w s) := by
  obtain ⟨outer, receiver, err, doneClosed, trace⟩ := s
  obtain ⟨hr, ho⟩ := h
  cases outer with
  | exited => exact ⟨hr, ho⟩
  | returned => exact ⟨hr, ho⟩
  | panicked e => exact ⟨hr, ho⟩
  | connect =>
    obtain ⟨rfl, rfl⟩ := ho
    simp only [RecvInv] at hr
    simp [Inv, RecvInv, OuterInv, stepOuter, hr]
  | checkErr =>
    obtain ⟨rfl, rfl, rfl⟩ := ho
    simp only [RecvInv] at hr
    cases hc : w.connect <;> simp [Inv, RecvInv, OuterInv, stepOuter, errAfter, hc, hr]
  | sendLoop i =>
    by_cases hi : i < c.msgsPerGo
    · cases receiver <;>
        simp_all [Inv, RecvInv, OuterInv, stepOuter, broadcast_eq]
    · have : i = c.msgsPerGo := by
        have := ho.1
        omega
      subst this
      cases receiver <;>
        simp_all [Inv, RecvInv, OuterInv, stepOuter]
  | sendCheck i e =>
    obtain ⟨h1, h2, h3, h4, h5, h6, rfl⟩ := ho
    cases hs : w.send i (envelopeOf c) with
    | none =>
      have h7 : ∀ j, j < i + 1 → w.send j (envelopeOf c) = none := by
        intro j hj
        rcases Nat.lt_succ_iff_lt_or_eq.mp hj with h | rfl
        · exact h6 j h
        · exact hs
      cases receiver <;>
        simp_all [Inv, RecvInv, OuterInv, stepOuter] <;> omega
    | some e =>
      cases receiver <;>
        simp_all [Inv, RecvInv, OuterInv, stepOuter] <;> exact ⟨i, h1, rfl, hs, h6⟩
  | waitDone =>
    cases receiver <;> cases doneClosed <;>
      simp_all [Inv, RecvInv, OuterInv, stepOuter]
  | wgDone =>
    obtain ⟨rfl, ho⟩ := ho
    simp_all [Inv, RecvInv, OuterInv, stepOuter, BeforeCloseSend]
  | closeSend =>
    obtain ⟨rfl, ho⟩ := ho
    simp_all [Inv, RecvInv, OuterInv, stepOuter, BeforeCloseSend]
  | printExit =>
    obtain ⟨rfl, h1, h2, pre, rfl, h3⟩ := ho
    simp_all [Inv, RecvInv, OuterInv, stepOuter, BeforeCloseSend]

theorem inv_step (c : Config) (w : Stream) (s : Session) (t : Thread) (h : Inv c w s) :
    Inv c w (step c w s t) := by
  cases t
  · exact inv_stepOuter c w s h
  · exact inv_stepReceiver c w s h

theorem run_nil (c : Config) (w : Stream) (s : Session) : run c w [] s = s := rfl

theorem run_cons (c : Config) (w : Stream) (t : Thread) (sched : List Thread) (s : Session) :
    run c w (t :: sched) s = run c w sched (step c w s t) := rfl

theorem run_append (c : Config) (w : Stream) (a b : List Thread) (s : Session) :
    run c w (a ++ b) s = run c w b (run c w a s) := by
  simp [run, List.foldl_append]

theorem inv_run (c : Config) (w : Stream) (sched : List Thread) (s : Session)
    (h : Inv c w s) : Inv c w (run c w sched s) := by
  induction sched generalizing s with
  | nil => exact h
  | cons t sched ih => exact ih _ (inv_step c w s t h)

theorem inv_reachable (c : Config) (w : Stream) (sched : List Thread) :
    Inv c w (run c w sched .init) :=
  inv_run c w sched _ (inv_init c w)

theorem closeSendCount_eq_zero {tr : List Event} (h : closeSendCount tr = 0) :
    Event.closeSend ∉ tr :=
  List.count_eq_zero.mp h

/-- C9: in a session that completes normally (its goroutine runs to the end,
or, more generally, has called `CloseSend`), the trace splits around one
`CloseSend` call: no other `CloseSend` before or after it, all `msgsPerGo`
`Recv` calls and the `close(done)` before it, and no `Recv` call after it. -/
theorem closeSend_once_after_receive (c : Config) (w : Stream) (sched : List Thread)
    (h : (run c w sched .init).outer = .exited ∨
      Event.closeSend ∈ (run c w sched .init).trace) :
    ∃ pre post, (run c w sched .init).trace = pre ++ Event.closeSend :: post ∧
      closeSendCount (run c w sched .init).trace = 1 ∧
      Event.closeSend ∉ pre ∧ Event.closeSend ∉ post ∧
      recvCount pre = c.msgsPerGo ∧ (∀ j, j < c.msgsPerGo → Event.recv j ∈ pre) ∧
      Event.closeDone ∈ pre ∧
      recvCount post = 0 ∧ (∀ j, Event.recv j ∉ post) := by
  obtain ⟨hr, ho⟩ := inv_reachable c w sched
  generalize run c w sched .init = s at h hr ho
  obtain ⟨outer, receiver, err, doneClosed, trace⟩ := s
  cases outer with
  | printExit =>
    obtain ⟨rfl, -, -, pre, rfl, h0, h1, -, h3, -⟩ := ho
    obtain ⟨-, -, -, -, h4⟩ := hr
    refine ⟨pre, [], rfl, by simp [h0], closeSendCount_eq_zero h0, by simp, h1, ?_, h3,
      rfl, by simp⟩
    intro j hj
    have := h4 j hj
    simpa using this
  | exited =>
    obtain ⟨rfl, -, -, pre, rfl, h0, h1, -, h3, -⟩ := ho
    obtain ⟨-, -, -, -, h4⟩ := hr
    refine ⟨pre, [.printExit], rfl, by simp [h0], closeSendCount_eq_zero h0, by simp, h1, ?_,
      h3, rfl, by simp⟩
    intro j hj
    have := h4 j hj
    simpa using this
  | connect => simp_all [OuterInv]
  | checkErr => simp_all [OuterInv]
  | returned =>
    obtain ⟨-, e, -, rfl⟩ := ho
    simp at h
  | sendLoop i => exact absurd (h.resolve_left (by simp)) (closeSendCount_eq_zero ho.2.2.1)
  | sendCheck i e => exact absurd (h.resolve_left (by simp)) (closeSendCount_eq_zero ho.2.2.1)
  | waitDone => exact absurd (h.resolve_left (by simp)) (closeSendCount_eq_zero ho.2.1)
  | wgDone => exact absurd (h.resolve_left (by simp)) (closeSendCount_eq_zero ho.2.2.1)
  | closeSend => exact absurd (h.resolve_left (by simp)) (closeSendCount_eq_zero ho.2.1.1)
  | panicked e => exact absurd (h.resolve_left (by simp)) (closeSendCount_eq_zero ho.1)

theorem closeSend_once_after_receive_witness :
    ∃ pre post, (run (configOf 2) streamOk (sendThenReceive 2) .init).trace
        = pre ++ Event.closeSend :: post ∧
      closeSendCount (run (configOf 2) streamOk (sendThenReceive 2) .init).trace = 1 ∧
      Event.closeSend ∉ pre ∧ Event.closeSend ∉ post ∧
      recvCount pre = (configOf 2).msgsPerGo ∧
      (∀ j, j < (configOf 2).msgsPerGo → Event.recv j ∈ pre) ∧
      Event.closeDone ∈ pre ∧
      recvCount post = 0 ∧ (∀ j, Event.recv j ∉ post) :=
  closeSend_once_after_receive (configOf 2) streamOk (sendThenReceive 2) (Or.inl (by decide))

theorem stepReceiver_outer (c : Config) (w : Stream) (s : Session) :
    (stepReceiver c w s).outer = s.outer := by
  obtain ⟨outer, receiver, err, doneClosed, trace⟩ := s
  cases outer <;> cases receiver <;> simp [stepReceiver] <;> split <;> rfl

theorem run_receiver_outer (c : Config) (w : Stream) (n : Nat) (s : Session) :
    (run c w (List.replicate n .receiver) s).outer = s.outer := by
  induction n generalizing s with
  | zero => rfl
  | succ n ih =>
    rw [List.replicate_succ, run_cons, ih]
    exact stepReceiver_outer c w s

theorem stepReceiver_remaining (c : Config) (w : Stream) (s : Session)
    (hab : s.aborted = false) (hi : Inv c w s) (hs : s.receiver ≠ .notStarted) :
    (stepReceiver c w s).receiver ≠ .notStarted ∧
      receiverRemaining c (stepReceiver c w s).receiver = receiverRemaining c s.receiver - 1 := by
  obtain ⟨outer, receiver, err, doneClosed, trace⟩ := s
  obtain ⟨hr, -⟩ := hi
  cases receiver with
  | notStarted => exact absurd rfl hs
  | loop i =>
    have hle : i ≤ c.msgsPerGo := hr.1
    by_cases hlt : i < c.msgsPerGo
    · cases outer <;> simp_all [stepReceiver, receiverRemaining, Session.aborted] <;> omega
    · have hM : i = c.msgsPerGo := by omega
      subst hM
      clear hr hle hlt
      cases outer <;> simp_all [stepReceiver, receiverRemaining, Session.aborted]
  | check =>
    cases err <;> cases outer <;> simp_all [stepReceiver, receiverRemaining, Session.aborted]
  | closeDone =>
    cases outer <;> simp_all [stepReceiver, receiverRemaining, Session.aborted]
  | finished =>
    cases outer <;> simp_all [stepReceiver, receiverRemaining, Session.aborted]

theorem receiver_finishes (c : Config) (w : Stream) (n : Nat) (s : Session)
    (hab : s.aborted = false) (hi : Inv c w s) (hs : s.receiver ≠ .notStarted)
    (hn : receiverRemaining c s.receiver ≤ n) :
    (run c w (List.replicate n .receiver) s).receiver = .finished := by
  induction n generalizing s with
  | zero =>
    have h0 : receiverRemaining c s.receiver = 0 := Nat.le_zero.mp hn
    cases hrec : s.receiver <;> simp_all [receiverRemaining, run_nil]
  | succ n ih =>
    rw [List.replicate_succ, run_cons]
    obtain ⟨h1, h2⟩ := stepReceiver_remaining c w s hab hi hs
    refine ih _ ?_ (inv_stepReceiver c w s hi) h1 (by rw [step, h2]; omega)
    simp only [step, Session.aborted, stepReceiver_outer]
    exact hab

theorem recvCount_le (c : Config) (w : Stream) (s : Session) (h : Inv c w s) :
    recvCount s.trace ≤ c.msgsPerGo := by
  obtain ⟨outer, receiver, err, doneClosed, trace⟩ := s
  obtain ⟨hr, -⟩ := h
  cases receiver <;> simp only [RecvInv] at hr <;> simp only [] <;> omega

theorem reportedErrors_cases (c : Config) (w : Stream) (s : Session) (h : Inv c w s) :
    reportedErrors s.trace = [] ∨
      (reportedErrors s.trace = (errAfter c w c.msgsPerGo).toList ∧
        (s.receiver = .closeDone ∨ s.receiver = .finished)) := by
  obtain ⟨outer, receiver, err, doneClosed, trace⟩ := s
  obtain ⟨hr, -⟩ := h
  cases receiver <;> simp only [RecvInv] at hr <;> simp [hr]

/-- The receive loop of lines 116-118 has no exit on an error: at the input of
C4 (message count 2, the first `Recv` fails, or the first response is a
rejection) the session calls `Recv` a second time after the failed one, so it
makes 2 calls and not 1. -/
theorem receive_continues_after_failure :
    getAck (configOf 2).cb (streamRecvFailsFirst.recv 0) = some ⟨"EOF"⟩ ∧
    (run (configOf 2) streamRecvFailsFirst (sendThenReceive 2) .init).trace
      = [.broadcastOpen, .send 0, .send 1, .recv 0, .recv 1, .closeDone, .wgDone,
          .closeSend, .printExit] ∧
    recvCount (run (configOf 2) streamRecvFailsFirst (sendThenReceive 2) .init).trace ≠ 0 + 1 ∧
    getAck (configOf 2).cb (streamRejectsFirst.recv 0)
      = some ⟨"Got unexpected status: BAD_REQUEST - bad"⟩ ∧
    (run (configOf 2) streamRejectsFirst (sendThenReceive 2) .init).trace
      = [.broadcastOpen, .send 0, .send 1, .recv 0, .recv 1, .closeDone, .wgDone,
          .closeSend, .printExit] ∧
    recvCount (run (configOf 2) streamRejectsFirst (sendThenReceive 2) .init).trace ≠ 0 + 1 := by
  refine ⟨by decide, by decide, by decide, by decide, by decide, by decide⟩

/-- C4, amended: whatever the `Recv` calls return, the receive goroutine does
not stop at a failure. It never makes more than `msgsPerGo` calls; when it has
ended it has made exactly `msgsPerGo` calls, one for each index below
`msgsPerGo`; and once it is started it ends within `msgsPerGo + 3` steps of its
own, unless a panic of the session goroutine has aborted the process. -/
theorem receive_drains_all (c : Config) (w : Stream) (sched : List Thread) :
    recvCount (run c w sched .init).trace ≤ c.msgsPerGo ∧
    ((run c w sched .init).receiver = .finished →
      recvCount (run c w sched .init).trace = c.msgsPerGo ∧
      ∀ j, j < c.msgsPerGo → Event.recv j ∈ (run c w sched .init).trace) ∧
    ((run c w sched .init).receiver ≠ .notStarted →
      (run c w sched .init).aborted = false →
      (run c w (sched ++ List.replicate (c.msgsPerGo + 3) .receiver) .init).receiver
        = .finished ∧
      recvCount (run c w (sched ++ List.replicate (c.msgsPerGo + 3) .receiver) .init).trace
        = c.msgsPerGo) := by
  have hinv := inv_reachable c w sched
  refine ⟨recvCount_le c w _ hinv, ?_, ?_⟩
  · intro hfin
    have hr := hinv.1
    simp only [RecvInv, hfin] at hr
    exact ⟨hr.1, hr.2.2.2.2⟩
  · intro hs hab
    have hfin : (run c w (sched ++ List.replicate (c.msgsPerGo + 3) .receiver) .init).receiver
        = .finished := by
      rw [run_append]
      refine receiver_finishes c w _ _ hab hinv hs ?_
      cases hrec : (run c w sched .init).receiver <;> simp [receiverRemaining]
    refine ⟨hfin, ?_⟩
    have hr := (inv_reachable c w (sched ++ List.replicate (c.msgsPerGo + 3) .receiver)).1
    simp only [RecvInv, hfin] at hr
    exact hr.1

/-- C5 at its failing input (message count 2, the first `Recv` fails, the
second succeeds): the first `getAck` call returns an error, the assignment of
line 117 in the next round replaces it by `nil`, and under every schedule
line 120 prints nothing, also in a run that goes to the end of the session. -/
theorem first_ack_error_lost :
    getAck (configOf 2).cb (streamRecvFailsFirst.recv 0) = some ⟨"EOF"⟩ ∧
    getAck (configOf 2).cb (streamRecvFailsFirst.recv 1) = none ∧
    (∀ sched, reportedErrors (run (configOf 2) streamRecvFailsFirst sched .init).trace = []) ∧
    (run (configOf 2) streamRecvFailsFirst (sendThenReceive 2) .init).outer = .exited ∧
    (run (configOf 2) streamRecvFailsFirst (sendThenReceive 2) .init).err = none := by
  refine ⟨by decide, by decide, ?_, by decide, by decide⟩
  intro sched
  rcases reportedErrors_cases _ _ _ (inv_reachable (configOf 2) streamRecvFailsFirst sched)
    with h | ⟨h, -⟩
  · exact h
  · rw [h]
    rfl

theorem stepOuter_of_aborted (c : Config) (w : Stream) (s : Session)
    (h : s.aborted = true) : stepOuter c w s = s := by
  obtain ⟨outer, receiver, err, doneClosed, trace⟩ := s
  cases outer <;> simp_all [Session.aborted, stepOuter]

theorem stepReceiver_of_aborted (c : Config) (w : Stream) (s : Session)
    (h : s.aborted = true) : stepReceiver c w s = s := by
  obtain ⟨outer, receiver, err, doneClosed, trace⟩ := s
  cases outer <;> simp_all [Session.aborted, stepReceiver]

theorem step_of_aborted (c : Config) (w : Stream) (s : Session) (t : Thread)
    (h : s.aborted = true) : step c w s t = s := by
  cases t
  · exact stepOuter_of_aborted c w s h
  · exact stepReceiver_of_aborted c w s h

/-- What the invariant says of a session whose `k`-th `Send` is the first to fail. -/
theorem inv_send_fails (c : Config) (w : Stream) (k : Nat) (e : GoError) (s : Session)
    (hinv : Inv c w s) (hconn : w.connect = none) (hk : k < c.msgsPerGo)
    (hbefore : ∀ j, j < k → w.send j (envelopeOf c) = none)
    (hfail : w.send k (envelopeOf c) = some e) :
    sendCount s.trace ≤ k + 1 ∧ wgDoneCount s.trace = 0 ∧ closeSendCount s.trace = 0 ∧
      s.outer ≠ .exited ∧
      (s.aborted = false → outerRank c s.outer ≤ 2 * k + 3) ∧
      (∀ err, s.outer = .panicked err → err = e ∧ sendCount s.trace = k + 1) := by
  obtain ⟨outer, receiver, err, doneClosed, trace⟩ := s
  obtain ⟨-, ho⟩ := hinv
  dsimp only
  have hnot : ¬ ∀ j, j < c.msgsPerGo → w.send j (envelopeOf c) = none := by
    intro h
    rw [h k hk] at hfail
    exact Option.noConfusion hfail
  cases outer with
  | connect => simp_all [OuterInv, outerRank]
  | checkErr => simp_all [OuterInv, outerRank]
  | returned =>
    obtain ⟨-, err, h, -⟩ := ho
    rw [hconn] at h
    exact Option.noConfusion h
  | sendLoop i =>
    simp only [OuterInv] at ho
    obtain ⟨h1, h2, h3, h4, -, h6⟩ := ho
    have hik : i ≤ k := by
      by_contra hlt
      rw [h6 k (by omega)] at hfail
      exact Option.noConfusion hfail
    simp only [outerRank]
    refine ⟨by omega, h4, h3, by simp, fun _ => by omega, by simp⟩
  | sendCheck i err =>
    simp only [OuterInv] at ho
    obtain ⟨h1, h2, h3, h4, -, h6, -⟩ := ho
    have hik : i ≤ k := by
      by_contra hlt
      rw [h6 k (by omega)] at hfail
      exact Option.noConfusion hfail
    simp only [outerRank]
    refine ⟨by omega, h4, h3, by simp, fun _ => by omega, by simp⟩
  | waitDone => exact absurd ho.2.2.2.2 hnot
  | wgDone => exact absurd ho.2.2.2.2.2 hnot
  | closeSend => exact absurd ho.2.2.2 hnot
  | printExit => exact absurd ho.2.2.1 hnot
  | exited => exact absurd ho.2.2.1 hnot
  | panicked err =>
    simp only [OuterInv] at ho
    obtain ⟨h1, h2, -, k1, h3, h4, h5, h6⟩ := ho
    have hk1 : k1 = k := by
      rcases Nat.lt_trichotomy k1 k with h | h | h
      · rw [hbefore k1 h] at h5
        exact Option.noConfusion h5
      · exact h
      · rw [h6 k h] at hfail
        exact Option.noConfusion hfail
    subst hk1
    rw [hfail] at h5
    simp only [Option.some.injEq] at h5
    refine ⟨by omega, h2, h1, by simp, by simp [Session.aborted], ?_⟩
    intro err1 herr
    simp only [OuterPc.panicked.injEq] at herr
    exact ⟨herr ▸ h5.symm, h4⟩

theorem stepOuter_advances_to_panic (c : Config) (w : Stream) (k : Nat) (e : GoError)
    (s : Session) (hinv : Inv c w s) (hconn : w.connect = none) (hk : k < c.msgsPerGo)
    (hbefore : ∀ j, j < k → w.send j (envelopeOf c) = none)
    (hfail : w.send k (envelopeOf c) = some e) (hab : s.aborted = false) :
    (stepOuter c w s).aborted = true ∨
      outerRank c (stepOuter c w s).outer = outerRank c s.outer + 1 := by
  have hfacts := inv_send_fails c w k e s hinv hconn hk hbefore hfail
  obtain ⟨outer, receiver, err, doneClosed, trace⟩ := s
  obtain ⟨-, ho⟩ := hinv
  dsimp only
  have hnot : ¬ ∀ j, j < c.msgsPerGo → w.send j (envelopeOf c) = none := by
    intro h
    rw [h k hk] at hfail
    exact Option.noConfusion hfail
  cases outer with
  | connect => right; simp [stepOuter, outerRank]
  | checkErr =>
    obtain ⟨-, -, h⟩ := ho
    simp only at h
    right
    simp [stepOuter, outerRank, h, hconn]
  | returned =>
    obtain ⟨-, err, h, -⟩ := ho
    rw [hconn] at h
    exact Option.noConfusion h
  | sendLoop i =>
    have hr := hfacts.2.2.2.2.1 hab
    simp only [outerRank] at hr
    have hi : i < c.msgsPerGo := by omega
    right
    simp only [stepOuter, outerRank, hi, broadcast_eq, if_true]
    omega
  | sendCheck i err =>
    cases err with
    | none => right; simp [stepOuter, outerRank]; omega
    | some e1 => left; simp [stepOuter, Session.aborted]
  | waitDone => exact absurd ho.2.2.2.2 hnot
  | wgDone => exact absurd ho.2.2.2.2.2 hnot
  | closeSend => exact absurd ho.2.2.2 hnot
  | printExit => exact absurd ho.2.2.1 hnot
  | exited => exact absurd ho.2.2.1 hnot
  | panicked err => simp [Session.aborted] at hab

theorem panic_reached (c : Config) (w : Stream) (k : Nat) (e : GoError) (n : Nat)
    (s : Session) (hinv : Inv c w s) (hconn : w.connect = none) (hk : k < c.msgsPerGo)
    (hbefore : ∀ j, j < k → w.send j (envelopeOf c) = none)
    (hfail : w.send k (envelopeOf c) = some e)
    (hn : s.aborted = true ∨ 2 * k + 4 ≤ outerRank c s.outer + n) :
    (run c w (List.replicate n .outer) s).outer = .panicked e := by
  induction n generalizing s with
  | zero =>
    have hfacts := inv_send_fails c w k e s hinv hconn hk hbefore hfail
    have hab : s.aborted = true := by
      rcases hn with h | h
      · exact h
      · by_contra hne
        have := hfacts.2.2.2.2.1 (by simpa using hne)
        omega
    rw [List.replicate_zero, run_nil]
    cases hout : s.outer <;> simp [Session.aborted, hout] at hab
    rename_i err
    rw [(hfacts.2.2.2.2.2 err hout).1]
  | succ n ih =>
    rw [List.replicate_succ, run_cons]
    refine ih _ (inv_step c w s .outer hinv) ?_
    by_cases hab : s.aborted = true
    · left
      rw [step, stepOuter_of_aborted c w s hab]
      exact hab
    · rcases stepOuter_advances_to_panic c w k e s hinv hconn hk hbefore hfail
        (by simpa using hab) with h | h
      · exact Or.inl h
      · right
        rw [step, h]
        rcases hn with h1 | h1
        · exact absurd h1 hab
        · omega

/-- Line 126 is `panic(err)`: at the input of C6 with message count 1 and
`k = 0`, the failed `Send` makes the session goroutine panic, so the session
does not end normally and records nothing; and in a process of two sessions the
panic of session 0 aborts the process, so that session 1, whose stream has no
fault, takes no step at all when it is scheduled afterwards. -/
theorem send_failure_aborts_process :
    streamSendFailsFirst.send 0 (envelopeOf (configOf 1)) = some ⟨"send failed"⟩ ∧
    (run (configOf 1) streamSendFailsFirst (List.replicate 4 .outer) .init).outer
      = .panicked ⟨"send failed"⟩ ∧
    (run (configOf 1) streamSendFailsFirst (List.replicate 4 .outer) .init).trace
      = [.broadcastOpen, .send 0, .panicked ⟨"send failed"⟩] ∧
    (run (configOf 1) streamSendFailsFirst (sendThenReceive 1) .init).outer ≠ .exited ∧
    main 2 2 = .ok (1, processOf 2 1) ∧
    (runProcess (configOf 1) streamsSendFailsAt0
        (inSession 0 (List.replicate 4 .outer) ++ inSession 1 (sendThenReceive 1))
        (processOf 2 1)).aborted = true ∧
    (runProcess (configOf 1) streamsSendFailsAt0
        (inSession 0 (List.replicate 4 .outer) ++ inSession 1 (sendThenReceive 1))
        (processOf 2 1)).sessions[1]? = some Session.init ∧
    (run (configOf 1) (streamsSendFailsAt0 1) (sendThenReceive 1) .init).outer = .exited := by
  refine ⟨by decide, by decide, by decide, by decide, by rfl, by decide, by decide, by decide⟩

theorem stepProcess_of_aborted (c : Config) (ws : Nat → Stream) (p : Process)
    (g : Goroutine) (h : p.aborted = true) : stepProcess c ws p g = p := by
  simp [stepProcess, h]

theorem runProcess_of_aborted (c : Config) (ws : Nat → Stream) (sched : List Goroutine)
    (p : Process) (h : p.aborted = true) : runProcess c ws sched p = p := by
  induction sched with
  | nil => rfl
  | cons g sched ih =>
    show runProcess c ws sched (stepProcess c ws p g) = p
    rw [stepProcess_of_aborted c ws p g h]
    exact ih

/-- The step of a session goroutine out of line 125 with a failed `Send`
aborts the process. -/
theorem stepProcess_panics (c : Config) (ws : Nat → Stream) (p : Process) (i k : Nat)
    (e : GoError) (s : Session) (hw : p.waitReturned = false) (ha : p.aborted = false)
    (hs : p.sessions[i]? = some s) (hpc : s.outer = .sendCheck k (some e)) :
    (stepProcess c ws p (.session i .outer)).aborted = true := by
  have h1 : (step c (ws i) s .outer).aborted = true := by
    obtain ⟨outer, receiver, err, doneClosed, trace⟩ := s
    simp only at hpc
    subst hpc
    rfl
  simp [stepProcess, hw, ha, hs, hpc, h1]

/-- C6, amended: in a session whose stream opened and whose `k`-th `Send`
(`k < msgsPerGo`) is the first to fail, under every schedule the session makes at
most `k + 1` `Send` calls and never ends normally (it never calls `wg.Done` or
`CloseSend` and never runs to its end); when its goroutine has panicked, the
panic carries the error of that `Send`, exactly `k + 1` `Send` calls were made
and no goroutine of the session takes a further step; the goroutine does panic
once it has taken `2 * k + 4` steps; and in a process the step that follows the
failed `Send` aborts the process, after which no goroutine of any session
takes a step. -/
theorem send_failure_panics (c : Config) (w : Stream) (k : Nat) (e : GoError)
    (sched : List Thread) (hconn : w.connect = none) (hk : k < c.msgsPerGo)
    (hbefore : ∀ j, j < k → w.send j (envelopeOf c) = none)
    (hfail : w.send k (envelopeOf c) = some e) :
    sendCount (run c w sched .init).trace ≤ k + 1 ∧
    (run c w sched .init).outer ≠ .exited ∧
    wgDoneCount (run c w sched .init).trace = 0 ∧
    closeSendCount (run c w sched .init).trace = 0 ∧
    (∀ err, (run c w sched .init).outer = .panicked err →
      err = e ∧ sendCount (run c w sched .init).trace = k + 1 ∧
      ∀ t, step c w (run c w sched .init) t = run c w sched .init) ∧
    (run c w (sched ++ List.replicate (2 * k + 4) .outer) .init).outer = .panicked e ∧
    (∀ (ws : Nat → Stream) (p : Process) (i : Nat),
      p.waitReturned = false → p.aborted = false →
      p.sessions[i]? = some (run c w sched .init) →
      (run c w sched .init).outer = .sendCheck k (some e) →
      (stepProcess c ws p (.session i .outer)).aborted = true ∧
      ∀ later, runProcess c ws later (stepProcess c ws p (.session i .outer))
        = stepProcess c ws p (.session i .outer)) := by
  have hinv := inv_reachable c w sched
  obtain ⟨h1, h2, h3, h4, h5, h6⟩ := inv_send_fails c w k e _ hinv hconn hk hbefore hfail
  refine ⟨h1, h4, h2, h3, ?_, ?_, ?_⟩
  · intro err herr
    obtain ⟨h7, h8⟩ := h6 err herr
    refine ⟨h7, h8, fun t => step_of_aborted c w _ t ?_⟩
    simp [Session.aborted, herr]
  · rw [run_append]
    exact panic_reached c w k e _ _ hinv hconn hk hbefore hfail (Or.inr (by omega))
  · intro ws p i hw ha hs hpc
    have hab := stepProcess_panics c ws p i k e _ hw ha hs hpc
    exact ⟨hab, fun later => runProcess_of_aborted c ws later _ hab⟩

theorem send_failure_panics_witness :
    sendCount (run (configOf 1) streamSendFailsFirst [.outer, .outer, .outer] .init).trace
      ≤ 0 + 1 ∧
    (run (configOf 1) streamSendFailsFirst (List.replicate 3 .outer ++
      List.replicate (2 * 0 + 4) .outer) .init).outer = .panicked ⟨"send failed"⟩ ∧
    (run (configOf 1) streamSendFailsFirst [.outer, .outer, .outer] .init).outer
      = .sendCheck 0 (some ⟨"send failed"⟩) ∧
    streamSendFailsFirst.connect = none ∧
    streamSendFailsFirst.send 0 (envelopeOf (configOf 1)) = some ⟨"send failed"⟩ :=
  have h := send_failure_panics (configOf 1) streamSendFailsFirst 0 ⟨"send failed"⟩
    [.outer, .outer, .outer] rfl (by decide) (fun j hj => absurd hj (Nat.not_lt_zero j)) rfl
  ⟨h.1, h.2.2.2.2.2.1, by decide, rfl, rfl⟩

/-- What the invariant says of a session on whose stream no call fails. -/
theorem inv_no_fault (c : Config) (w : Stream) (s : Session) (hinv : Inv c w s)
    (hconn : w.connect = none)
    (hsend : ∀ k, k < c.msgsPerGo → w.send k (envelopeOf c) = none) :
    s.aborted = false ∧ s.outer ≠ .returned ∧ sendCount s.trace ≤ c.msgsPerGo ∧
      (wgDoneCount s.trace ≠ 0 →
        wgDoneCount s.trace = 1 ∧ sendCount s.trace = c.msgsPerGo ∧
          recvCount s.trace = c.msgsPerGo) := by
  obtain ⟨outer, receiver, err, doneClosed, trace⟩ := s
  obtain ⟨hr, ho⟩ := hinv
  simp only [OuterInv] at ho
  dsimp only
  cases outer with
  | connect => simp_all [Session.aborted]
  | checkErr => simp_all [Session.aborted]
  | returned =>
    obtain ⟨-, err, h, -⟩ := ho
    rw [hconn] at h
    exact Option.noConfusion h
  | sendLoop i => simp_all [Session.aborted]
  | sendCheck i err =>
    obtain ⟨h1, h2, -, h4, -⟩ := ho
    refine ⟨rfl, by simp, by omega, fun h => absurd h4 h⟩
  | waitDone => simp_all [Session.aborted]
  | wgDone => simp_all [Session.aborted]
  | closeSend =>
    obtain ⟨rfl, ⟨-, h1, h2, -, h3⟩, -⟩ := ho
    exact ⟨rfl, by simp, by omega, fun _ => ⟨h3, h2, h1⟩⟩
  | printExit =>
    obtain ⟨rfl, -, -, pre, rfl, -, h1, h2, -, h3⟩ := ho
    simp [Session.aborted, h1, h2, h3]
  | exited =>
    obtain ⟨rfl, -, -, pre, rfl, -, h1, h2, -, h3⟩ := ho
    simp [Session.aborted, h1, h2, h3]
  | panicked err =>
    obtain ⟨-, -, -, k, h1, -, h2, -⟩ := ho
    rw [hsend k h1] at h2
    exact Option.noConfusion h2

theorem errAfter_no_fault (c : Config) (w : Stream)
    (hrecv : ∀ k, k < c.msgsPerGo →
      ∃ msg, w.recv k = .ok msg ∧ msg.Status = c.cb.Status_SUCCESS)
    (i : Nat) (hi : i ≤ c.msgsPerGo) : errAfter c w i = none := by
  cases i with
  | zero => rfl
  | succ i =>
    obtain ⟨msg, h1, h2⟩ := hrecv i hi
    simp [errAfter, h1, getAck, h2]

theorem stepOuter_receiver_finished (c : Config) (w : Stream) (s : Session)
    (hinv : Inv c w s) (h : s.receiver = .finished) : (stepOuter c w s).receiver = .finished := by
  obtain ⟨outer, receiver, err, doneClosed, trace⟩ := s
  obtain ⟨-, ho⟩ := hinv
  simp only at h
  subst h
  cases outer <;> simp [stepOuter, broadcast_eq] <;> (try split) <;> simp_all [OuterInv]

/-- On a stream without a fault the session goroutine advances by one control
point with every step, except where `<-done` blocks. -/
theorem stepOuter_advances (c : Config) (w : Stream) (s : Session) (hinv : Inv c w s)
    (hconn : w.connect = none)
    (hsend : ∀ k, k < c.msgsPerGo → w.send k (envelopeOf c) = none) :
    outerRank c s.outer ≤ outerRank c (stepOuter c w s).outer ∧
    (outerRank c s.outer < 2 * c.msgsPerGo + 3 ∨
        (s.receiver = .finished ∧ outerRank c s.outer < 2 * c.msgsPerGo + 7) →
      outerRank c (stepOuter c w s).outer = outerRank c s.outer + 1) := by
  have hnf := inv_no_fault c w s hinv hconn hsend
  obtain ⟨outer, receiver, err, doneClosed, trace⟩ := s
  obtain ⟨hr, ho⟩ := hinv
  simp only [OuterInv] at ho
  cases outer with
  | connect => simp [stepOuter, outerRank]
  | checkErr =>
    obtain ⟨-, -, h⟩ := ho
    simp [stepOuter, outerRank, h, hconn]
  | returned => exact absurd rfl hnf.2.1
  | sendLoop i =>
    obtain ⟨h1, -⟩ := ho
    by_cases hi : i < c.msgsPerGo
    · simp only [stepOuter, outerRank, hi, broadcast_eq, if_true]
      omega
    · have : i = c.msgsPerGo := by omega
      subst this
      simp only [stepOuter, outerRank, hi, if_false]
      omega
  | sendCheck i err =>
    obtain ⟨h1, -, -, -, -, -, h2⟩ := ho
    rw [hsend i h1] at h2
    subst h2
    simp only [stepOuter, outerRank]
    omega
  | waitDone =>
    cases receiver <;> simp only [RecvInv] at hr <;> simp_all [stepOuter, outerRank]
  | wgDone => simp [stepOuter, outerRank]
  | closeSend => simp [stepOuter, outerRank]
  | printExit => simp [stepOuter, outerRank]
  | exited => simp [stepOuter, outerRank]
  | panicked err => simp [Session.aborted] at hnf

theorem outer_advances (c : Config) (w : Stream) (hconn : w.connect = none)
    (hsend : ∀ k, k < c.msgsPerGo → w.send k (envelopeOf c) = none)
    (bound n : Nat) (s : Session) (hinv : Inv c w s)
    (hb : bound ≤ 2 * c.msgsPerGo + 3 ∨
      (s.receiver = .finished ∧ bound ≤ 2 * c.msgsPerGo + 7))
    (hn : bound ≤ outerRank c s.outer + n) :
    bound ≤ outerRank c (run c w (List.replicate n .outer) s).outer := by
  induction n generalizing s with
  | zero => simpa using hn
  | succ n ih =>
    rw [List.replicate_succ, run_cons]
    obtain ⟨hmono, hadv⟩ := stepOuter_advances c w s hinv hconn hsend
    have hfin : s.receiver = .finished → (step c w s .outer).receiver = .finished :=
      stepOuter_receiver_finished c w s hinv
    refine ih _ (inv_step c w s .outer hinv) ?_ ?_
    · rcases hb with h | ⟨h1, h2⟩
      · exact Or.inl h
      · exact Or.inr ⟨hfin h1, h2⟩
    · by_cases hlt : outerRank c s.outer < bound
      · have : outerRank c (stepOuter c w s).outer = outerRank c s.outer + 1 := by
          apply hadv
          rcases hb with h | ⟨h1, h2⟩
          · exact Or.inl (by omega)
          · exact Or.inr ⟨h1, by omega⟩
        rw [step, this]
        omega
      · have : bound ≤ outerRank c (step c w s .outer).outer :=
          le_trans (Nat.le_of_not_lt hlt) hmono
        omega

theorem outerRank_bounds (c : Config) (w : Stream) (s : Session) (hinv : Inv c w s) :
    (2 ≤ outerRank c s.outer → s.receiver ≠ .notStarted) ∧
    (2 * c.msgsPerGo + 7 ≤ outerRank c s.outer → s.outer = .exited) := by
  obtain ⟨outer, receiver, err, doneClosed, trace⟩ := s
  obtain ⟨hr, ho⟩ := hinv
  simp only [OuterInv] at ho
  cases outer with
  | sendLoop i =>
    cases receiver <;> simp only [RecvInv] at hr <;> simp_all [outerRank] <;> omega
  | sendCheck i err =>
    cases receiver <;> simp only [RecvInv] at hr <;> simp_all [outerRank] <;> omega
  | waitDone => cases receiver <;> simp only [RecvInv] at hr <;> simp_all [outerRank]
  | _ => simp_all [outerRank]

theorem receiverRemaining_le (c : Config) (r : RecvPc) :
    receiverRemaining c r ≤ c.msgsPerGo + 3 := by
  cases r <;> simp [receiverRemaining]

/-- A session on whose stream no call fails reaches the end of its goroutine
from any reachable state when the schedule `sendThenReceive` is run. -/
theorem completes_without_fault (c : Config) (w : Stream) (hconn : w.connect = none)
    (hsend : ∀ k, k < c.msgsPerGo → w.send k (envelopeOf c) = none)
    (s : Session) (hinv : Inv c w s) :
    (run c w (sendThenReceive c.msgsPerGo) s).outer = .exited := by
  rw [sendThenReceive, run_append, run_append]
  have h1 := outer_advances c w hconn hsend (2 * c.msgsPerGo + 3) (2 * c.msgsPerGo + 3) s hinv
    (Or.inl (le_refl _)) (by omega)
  have hinv1 := inv_run c w (List.replicate (2 * c.msgsPerGo + 3) .outer) s hinv
  generalize run c w (List.replicate (2 * c.msgsPerGo + 3) .outer) s = s1 at h1 hinv1 ⊢
  have hstart : s1.receiver ≠ .notStarted :=
    (outerRank_bounds c w s1 hinv1).1 (by omega)
  have hab : s1.aborted = false := (inv_no_fault c w s1 hinv1 hconn hsend).1
  have hfin := receiver_finishes c w (c.msgsPerGo + 3) s1 hab hinv1 hstart
    (receiverRemaining_le c _)
  have hout := run_receiver_outer c w (c.msgsPerGo + 3) s1
  have hinv2 := inv_run c w (List.replicate (c.msgsPerGo + 3) .receiver) s1 hinv1
  generalize run c w (List.replicate (c.msgsPerGo + 3) .receiver) s1 = s2
    at hfin hout hinv2 ⊢
  have h3 := outer_advances c w hconn hsend (2 * c.msgsPerGo + 7) 4 s2 hinv2
    (Or.inr ⟨hfin, le_refl _⟩) (by rw [hout]; omega)
  have hinv3 := inv_run c w (List.replicate 4 .outer) s2 hinv2
  exact (outerRank_bounds c w _ hinv3).2 h3

theorem wgDoneCount_exited (c : Config) (w : Stream) (s : Session) (hinv : Inv c w s)
    (h : s.outer = .exited) : wgDoneCount s.trace = 1 := by
  obtain ⟨outer, receiver, err, doneClosed, trace⟩ := s
  obtain ⟨-, ho⟩ := hinv
  simp only at h
  subst h
  obtain ⟨-, -, -, pre, rfl, -, -, -, -, h3⟩ := ho
  simp [h3]

theorem wgDoneCount_stepReceiver (c : Config) (w : Stream) (s : Session) :
    wgDoneCount (stepReceiver c w s).trace = wgDoneCount s.trace := by
  obtain ⟨outer, receiver, err, doneClosed, trace⟩ := s
  cases outer <;> cases receiver <;> simp [stepReceiver] <;> split <;> simp

theorem wgDoneCount_stepOuter (c : Config) (w : Stream) (s : Session) :
    wgDoneCount (stepOuter c w s).trace
      = wgDoneCount s.trace + if s.outer = .wgDone then 1 else 0 := by
  obtain ⟨outer, receiver, err, doneClosed, trace⟩ := s
  cases outer <;> simp [stepOuter, broadcast_eq] <;> split <;> simp

theorem inv_connect_fails (c : Config) (w : Stream) (s : Session) (hinv : Inv c w s)
    (hconn : w.connect ≠ none) :
    s.aborted = false ∧ s.outer ≠ .wgDone ∧ wgDoneCount s.trace = 0 ∧ s.outer ≠ .exited := by
  obtain ⟨outer, receiver, err, doneClosed, trace⟩ := s
  obtain ⟨-, ho⟩ := hinv
  simp only [OuterInv] at ho
  cases outer with
  | returned =>
    obtain ⟨-, e, -, rfl⟩ := ho
    simp [Session.aborted]
  | _ => simp_all [Session.aborted]

/-- What holds in every reachable state of the process of two sessions of two
messages each in which the stream of session 1 cannot be opened. -/
theorem process_no_connect_step (p : Process) (g : Goroutine)
    (h : p.waitReturned = false ∧ p.aborted = false ∧
      ∃ s0 s1, p.sessions = [s0, s1] ∧ Inv (configOf 2) streamOk s0 ∧
        Inv (configOf 2) streamNoConnect s1 ∧ p.wg = 2 - (wgDoneCount s0.trace : Int)) :
    (stepProcess (configOf 2) streamsNoConnectAt1 p g).waitReturned = false ∧
      (stepProcess (configOf 2) streamsNoConnectAt1 p g).aborted = false ∧
      ∃ s0 s1, (stepProcess (configOf 2) streamsNoConnectAt1 p g).sessions = [s0, s1] ∧
        Inv (configOf 2) streamOk s0 ∧ Inv (configOf 2) streamNoConnect s1 ∧
        (stepProcess (configOf 2) streamsNoConnectAt1 p g).wg
          = 2 - (wgDoneCount s0.trace : Int) := by
  obtain ⟨hw, ha, s0, s1, hs, h0, h1, hwg⟩ := h
  obtain ⟨f1, f2, f3, f4⟩ := inv_no_fault (configOf 2) streamOk s0 h0 rfl (fun _ _ => rfl)
  have hle : wgDoneCount s0.trace ≤ 1 := by
    by_cases hz : wgDoneCount s0.trace = 0
    · omega
    · exact le_of_eq (f4 hz).1
  cases g with
  | main =>
    have hne : p.wg ≠ 0 := by omega
    have hstep : stepProcess (configOf 2) streamsNoConnectAt1 p .main = p := by
      simp [stepProcess, hw, ha, hne]
    rw [hstep]
    exact ⟨hw, ha, s0, s1, hs, h0, h1, hwg⟩
  | session i t =>
    match i with
    | 0 =>
      have hinv := inv_step (configOf 2) streamOk s0 t h0
      have hab := (inv_no_fault (configOf 2) streamOk _ hinv rfl (fun _ _ => rfl)).1
      by_cases hcase : s0.outer = .wgDone ∧ t = .outer
      · obtain ⟨hpc, rfl⟩ := hcase
        have hcount := wgDoneCount_stepOuter (configOf 2) streamOk s0
        have hzero : wgDoneCount s0.trace = 0 := by
          have := h0.2
          simp only [OuterInv, hpc] at this
          exact this.2.2.2.1
        simp only [hpc, if_true] at hcount
        have hwg2 : p.wg = 2 := by omega
        have hadd : wgAdd p.wg (-1) = .ok 1 := by
          rw [hwg2]
          exact wgAdd_ok (by decide) (by decide)
        have hstep : stepProcess (configOf 2) streamsNoConnectAt1 p (.session 0 .outer)
            = { p with wg := 1, sessions := [step (configOf 2) streamOk s0 .outer, s1] } := by
          simp [stepProcess, hw, ha, hs, streamsNoConnectAt1, hpc, hadd]
        rw [hstep]
        refine ⟨hw, ha, _, _, rfl, hinv, h1, ?_⟩
        simp only [step] at hcount ⊢
        omega
      · have hcount : wgDoneCount (step (configOf 2) streamOk s0 t).trace
            = wgDoneCount s0.trace := by
          cases t with
          | receiver => exact wgDoneCount_stepReceiver _ _ _
          | outer =>
            have hpc : s0.outer ≠ .wgDone := fun h => hcase ⟨h, rfl⟩
            simp [step, wgDoneCount_stepOuter, hpc]
        have hstep : stepProcess (configOf 2) streamsNoConnectAt1 p (.session 0 t)
            = { p with sessions := [step (configOf 2) streamOk s0 t, s1] } := by
          simp [stepProcess, hw, ha, hs, streamsNoConnectAt1, hcase, hab]
        rw [hstep]
        exact ⟨hw, ha, _, _, rfl, hinv, h1, by rw [hcount]; exact hwg⟩
    | 1 =>
      have hinv := inv_step (configOf 2) streamNoConnect s1 t h1
      have hab := (inv_connect_fails (configOf 2) streamNoConnect _ hinv (by decide)).1
      have hpc := (inv_connect_fails (configOf 2) streamNoConnect _ h1 (by decide)).2.1
      have hstep : stepProcess (configOf 2) streamsNoConnectAt1 p (.session 1 t)
          = { p with sessions := [s0, step (configOf 2) streamNoConnect s1 t] } := by
        simp [stepProcess, hw, ha, hs, streamsNoConnectAt1, hpc, hab]
      rw [hstep]
      exact ⟨hw, ha, _, _, rfl, h0, hinv, hwg⟩
    | n + 2 =>
      have hstep : stepProcess (configOf 2) streamsNoConnectAt1 p (.session (n + 2) t) = p := by
        simp [stepProcess, hw, ha, hs]
      rw [hstep]
      exact ⟨hw, ha, s0, s1, hs, h0, h1, hwg⟩

theorem process_no_connect_run (sched : List Goroutine) (p : Process)
    (h : p.waitReturned = false ∧ p.aborted = false ∧
      ∃ s0 s1, p.sessions = [s0, s1] ∧ Inv (configOf 2) streamOk s0 ∧
        Inv (configOf 2) streamNoConnect s1 ∧ p.wg = 2 - (wgDoneCount s0.trace : Int)) :
    (runProcess (configOf 2) streamsNoConnectAt1 sched p).waitReturned = false ∧
      1 ≤ (runProcess (configOf 2) streamsNoConnectAt1 sched p).wg := by
  induction sched generalizing p with
  | nil =>
    obtain ⟨hw, -, s0, s1, -, h0, -, hwg⟩ := h
    obtain ⟨-, -, -, f4⟩ := inv_no_fault (configOf 2) streamOk s0 h0 rfl (fun _ _ => rfl)
    refine ⟨hw, ?_⟩
    show 1 ≤ p.wg
    by_cases hz : wgDoneCount s0.trace = 0
    · omega
    · have := (f4 hz).1
      omega
  | cons g sched ih => exact ih _ (process_no_connect_step p g h)

/-- C8 at its failing input, the scenario of the specification with two
sessions, four messages and a stream of session 1 that cannot be opened: `main`
adds 2 to the wait group; the goroutine of session 1 returns at line 110 without
calling `wg.Done()`; so under every schedule the counter stays at 1 or more and
`wg.Wait()` never returns, also after session 0 has run to its end. -/
theorem connect_failure_skips_wgDone :
    main 4 2 = .ok (2, processOf 2 2) ∧
    (processOf 2 2).wg = 2 ∧
    (run (configOf 2) streamNoConnect [.outer, .outer] .init).outer = .returned ∧
    (run (configOf 2) streamNoConnect [.outer, .outer] .init).trace
      = [.broadcastOpen, .printConnErr ⟨"connection refused"⟩] ∧
    (∀ sched t, wgDoneCount (run (configOf 2) streamNoConnect sched .init).trace = 0 ∧
      step (configOf 2) streamNoConnect
          (run (configOf 2) streamNoConnect [.outer, .outer] .init) t
        = run (configOf 2) streamNoConnect [.outer, .outer] .init) ∧
    (∀ sched,
      (runProcess (configOf 2) streamsNoConnectAt1 sched (processOf 2 2)).waitReturned = false ∧
      1 ≤ (runProcess (configOf 2) streamsNoConnectAt1 sched (processOf 2 2)).wg) ∧
    ((runProcess (configOf 2) streamsNoConnectAt1
        (inSession 1 [.outer, .outer] ++ inSession 0 (sendThenReceive 2) ++ [.main])
        (processOf 2 2)).sessions.map fun s => s.outer) = [.exited, .returned] ∧
    (runProcess (configOf 2) streamsNoConnectAt1
        (inSession 1 [.outer, .outer] ++ inSession 0 (sendThenReceive 2) ++ [.main])
        (processOf 2 2)).wg = 1 := by
  refine ⟨by rfl, by decide, by decide, by decide, ?_, ?_, by decide, by decide⟩
  · intro sched t
    refine ⟨(inv_connect_fails _ _ _ (inv_reachable _ _ sched) (by decide)).2.2.1, ?_⟩
    cases t <;> rfl
  · intro sched
    refine process_no_connect_run sched _ ⟨rfl, rfl, .init, .init, rfl, inv_init _ _,
      inv_init _ _, by decide⟩

theorem wgDoneCount_le_one (c : Config) (w : Stream) (s : Session) (hinv : Inv c w s) :
    wgDoneCount s.trace ≤ 1 := by
  obtain ⟨outer, receiver, err, doneClosed, trace⟩ := s
  obtain ⟨-, ho⟩ := hinv
  simp only [OuterInv] at ho
  dsimp only
  cases outer with
  | connect => simp [ho.2]
  | checkErr => simp [ho.2.1]
  | returned =>
    obtain ⟨-, e, -, rfl⟩ := ho
    simp
  | sendLoop i => omega
  | sendCheck i e => omega
  | waitDone => omega
  | wgDone => omega
  | closeSend =>
    have := ho.2.1.2.2.2.2
    omega
  | printExit =>
    obtain ⟨-, -, -, pre, rfl, -, -, -, -, h⟩ := ho
    simp [h]
  | exited =>
    obtain ⟨-, -, -, pre, rfl, -, -, -, -, h⟩ := ho
    simp [h]
  | panicked e => omega

theorem sum_map_le_length (f : Session → Nat) (l : List Session)
    (h : ∀ s, s ∈ l → f s ≤ 1) : (l.map f).sum ≤ l.length := by
  induction l with
  | nil => simp
  | cons a l ih =>
    have h1 := h a (List.mem_cons_self a l)
    have h2 := ih fun s hs => h s (List.mem_cons_of_mem a hs)
    simp only [List.map_cons, List.sum_cons, List.length_cons]
    omega

theorem sum_map_eq_length (f : Session → Nat) (l : List Session)
    (h : ∀ s, s ∈ l → f s ≤ 1) (hsum : (l.map f).sum = l.length) :
    ∀ s, s ∈ l → f s = 1 := by
  induction l with
  | nil => intro s hs; cases hs
  | cons a l ih =>
    have h1 := h a (List.mem_cons_self a l)
    have h2 := sum_map_le_length f l fun s hs => h s (List.mem_cons_of_mem a hs)
    simp only [List.map_cons, List.sum_cons, List.length_cons] at hsum
    intro s hs
    rcases List.mem_cons.mp hs with rfl | hs
    · omega
    · exact ih (fun s hs => h s (List.mem_cons_of_mem a hs)) (by omega) s hs

theorem sum_map_set (f : Session → Nat) (l : List Session) (j : Nat) (s s1 : Session)
    (h : l[j]? = some s) :
    ((l.set j s1).map f).sum + f s = (l.map f).sum + f s1 := by
  induction l generalizing j with
  | nil => simp at h
  | cons a l ih =>
    cases j with
    | zero =>
      simp only [List.getElem?_cons_zero, Option.some.injEq] at h
      subst h
      simp only [List.set_cons_zero, List.map_cons, List.sum_cons]
      omega
    | succ j =>
      simp only [List.getElem?_cons_succ] at h
      have := ih j h
      simp only [List.set_cons_succ, List.map_cons, List.sum_cons]
      omega
theorem procInv_set (c : Config) (ws : Nat → Stream) (g : Nat) (p : Process) (j : Nat)
    (t : Thread) (s : Session) (hinv : ProcInv c ws g p) (hs : p.sessions[j]? = some s) :
    (∀ j1 s1, (p.sessions.set j (step c (ws j) s t))[j1]? = some s1 → Inv c (ws j1) s1) ∧
      ((p.sessions.set j (step c (ws j) s t)).map fun s => wgDoneCount s.trace).sum ≤ g := by
  obtain ⟨hlen, hall, -, -⟩ := hinv
  have hall1 : ∀ j1 s1, (p.sessions.set j (step c (ws j) s t))[j1]? = some s1 →
      Inv c (ws j1) s1 := by
    intro j1 s1 h1
    rw [List.getElem?_set] at h1
    by_cases hj : j = j1
    · subst hj
      rw [if_pos rfl] at h1
      split at h1
      · simp only [Option.some.injEq] at h1
        subst h1
        exact inv_step c (ws j) s t (hall j s hs)
      · exact Option.noConfusion h1
    · rw [if_neg hj] at h1
      exact hall j1 s1 h1
  refine ⟨hall1, ?_⟩
  have hle := sum_map_le_length (fun s => wgDoneCount s.trace)
    (p.sessions.set j (step c (ws j) s t)) (by
      intro s1 hs1
      obtain ⟨j1, h1⟩ := List.mem_iff_getElem?.mp hs1
      exact wgDoneCount_le_one c (ws j1) s1 (hall1 j1 s1 h1))
  rw [List.length_set, hlen] at hle
  exact hle

theorem wgDoneCount_step (c : Config) (w : Stream) (s : Session) (t : Thread) :
    wgDoneCount (step c w s t).trace
      = wgDoneCount s.trace + if s.outer = .wgDone ∧ t = .outer then 1 else 0 := by
  cases t with
  | outer =>
    rw [step, wgDoneCount_stepOuter]
    by_cases h : s.outer = .wgDone <;> simp [h]
  | receiver =>
    rw [step, wgDoneCount_stepReceiver]
    simp

/-- The step of a session goroutine in a process that `main` started with fewer
than `2 ^ 31` sessions: `wg.Done()` never finds the counter at zero. -/
theorem stepProcess_session (c : Config) (ws : Nat → Stream) (g : Nat) (p : Process)
    (j : Nat) (t : Thread) (s : Session) (hg : g < 2 ^ 31) (hinv : ProcInv c ws g p)
    (hw : p.waitReturned = false) (ha : p.aborted = false)
    (hs : p.sessions[j]? = some s) :
    stepProcess c ws p (.session j t)
      = { p with
          wg := if s.outer = .wgDone ∧ t = .outer then p.wg - 1 else p.wg
          sessions := p.sessions.set j (step c (ws j) s t)
          aborted := (step c (ws j) s t).aborted } := by
  obtain ⟨-, hsum⟩ := procInv_set c ws g p j t s hinv hs
  have hset := sum_map_set (fun s => wgDoneCount s.trace) p.sessions j s (step c (ws j) s t) hs
  have hcount := wgDoneCount_step c (ws j) s t
  obtain ⟨-, -, hwg, -⟩ := hinv
  simp only [Process.doneCalls] at hwg
  by_cases hcase : s.outer = .wgDone ∧ t = .outer
  · rw [if_pos hcase] at hcount
    simp only at hset
    have hadd : wgAdd p.wg (-1) = .ok (p.wg - 1) := by
      have := @wgAdd_ok p.wg (-1) (by omega) (by omega)
      rw [this]
      rfl
    have hab : (step c (ws j) s t).aborted = false := by
      obtain ⟨hpc, rfl⟩ := hcase
      obtain ⟨outer, receiver, err, doneClosed, trace⟩ := s
      simp only at hpc
      subst hpc
      rfl
    obtain ⟨hpc, rfl⟩ := hcase
    simp [stepProcess, hw, ha, hs, hpc, hadd, hab]
  · simp [stepProcess, hw, ha, hs, hcase]

theorem procInv_step (c : Config) (ws : Nat → Stream) (g : Nat) (p : Process)
    (gr : Goroutine) (hg : g < 2 ^ 31) (hinv : ProcInv c ws g p) :
    ProcInv c ws g (stepProcess c ws p gr) := by
  by_cases hflag : p.waitReturned = true ∨ p.aborted = true
  · have : stepProcess c ws p gr = p := by
      rcases hflag with h | h <;> simp [stepProcess, h]
    rw [this]
    exact hinv
  · have hw : p.waitReturned = false := by
      cases h : p.waitReturned <;> simp_all
    have ha : p.aborted = false := by
      cases h : p.aborted <;> simp_all
    cases gr with
    | main =>
      by_cases hz : p.wg = 0
      · have : stepProcess c ws p .main = { p with waitReturned := true } := by
          simp [stepProcess, hw, ha, hz]
        rw [this]
        exact ⟨hinv.1, hinv.2.1, hinv.2.2.1, fun _ => hz⟩
      · have : stepProcess c ws p .main = p := by
          simp [stepProcess, hw, ha, hz]
        rw [this]
        exact hinv
    | session j t =>
      cases hs : p.sessions[j]? with
      | none =>
        have : stepProcess c ws p (.session j t) = p := by
          simp [stepProcess, hw, ha, hs]
        rw [this]
        exact hinv
      | some s =>
        rw [stepProcess_session c ws g p j t s hg hinv hw ha hs]
        obtain ⟨hall1, -⟩ := procInv_set c ws g p j t s hinv hs
        have hset := sum_map_set (fun s => wgDoneCount s.trace) p.sessions j s
          (step c (ws j) s t) hs
        have hcount := wgDoneCount_step c (ws j) s t
        obtain ⟨hlen, -, hwg, -⟩ := hinv
        simp only [Process.doneCalls] at hwg
        refine ⟨by simp [hlen], hall1, ?_, ?_⟩
        · simp only [Process.doneCalls]
          simp only at hset
          by_cases hcase : s.outer = .wgDone ∧ t = .outer
          · rw [if_pos hcase] at hcount ⊢
            omega
          · rw [if_neg hcase] at hcount ⊢
            omega
        · intro h
          simp [hw] at h

theorem procInv_run (c : Config) (ws : Nat → Stream) (g : Nat) (sched : List Goroutine)
    (p : Process) (hg : g < 2 ^ 31) (hinv : ProcInv c ws g p) :
    ProcInv c ws g (runProcess c ws sched p) := by
  induction sched generalizing p with
  | nil => exact hinv
  | cons gr sched ih => exact ih _ (procInv_step c ws g p gr hg hinv)
theorem main_ok (messages goroutines : Nat) (hpos : 1 ≤ goroutines)
    (hg : goroutines < 2 ^ 31) :
    main messages goroutines
      = .ok (messages / goroutines, processOf goroutines (messages / goroutines)) := by
  have hne : goroutines ≠ 0 := by omega
  have h64 : goroutines < uint64Size := by
    simp only [uint64Size]
    omega
  have hmod : goroutines % 2 ^ 32 < 2 ^ 31 := by omega
  have hadd := wgAdd_goroutines goroutines h64
  have hwrap := intOfUint64_wrap goroutines h64
  rw [if_pos hmod] at hadd hwrap
  simp only [main, rounding, msgsPerGo, if_neg hne, hadd, processOf, hwrap]

theorem procInv_processOf (c : Config) (ws : Nat → Stream) (g perGo : Nat)
    (hg : g < 2 ^ 31) : ProcInv c ws g (processOf g perGo) := by
  have h64 : g < uint64Size := by
    simp only [uint64Size]
    omega
  have hmod : g % 2 ^ 32 < 2 ^ 31 := by omega
  have hwrap := intOfUint64_wrap g h64
  rw [if_pos hmod] at hwrap
  have hinit : ∀ s, s ∈ (processOf g perGo).sessions → s = Session.init := by
    intro s hs
    simp only [processOf, List.mem_map] at hs
    obtain ⟨_, _, rfl⟩ := hs
    rfl
  have hzero : (processOf g perGo).doneCalls = 0 := by
    have hle := sum_map_le_length (fun s => wgDoneCount s.trace + 1)
      (processOf g perGo).sessions (by
        intro s hs
        rw [hinit s hs]
        decide)
    have hlen : (processOf g perGo).sessions.length = g := by simp [processOf, spawnLoop]
    have hsplit : ∀ l : List Session,
        (l.map fun s => wgDoneCount s.trace + 1).sum
          = (l.map fun s => wgDoneCount s.trace).sum + l.length := by
      intro l
      induction l with
      | nil => rfl
      | cons a l ih =>
        simp only [List.map_cons, List.sum_cons, List.length_cons, ih]
        omega
    rw [hsplit] at hle
    simp only [Process.doneCalls]
    omega
  refine ⟨by simp [processOf, spawnLoop], ?_, ?_, ?_⟩
  · intro j s hs
    rw [hinit s (List.getElem?_mem hs)]
    exact inv_init c (ws j)
  · rw [hzero]
    simp only [processOf, hwrap]
    omega
  · intro h
    simp [processOf] at h

theorem runProcess_nil (c : Config) (ws : Nat → Stream) (p : Process) :
    runProcess c ws [] p = p := rfl

theorem runProcess_cons (c : Config) (ws : Nat → Stream) (gr : Goroutine)
    (sched : List Goroutine) (p : Process) :
    runProcess c ws (gr :: sched) p = runProcess c ws sched (stepProcess c ws p gr) := rfl

theorem runProcess_append (c : Config) (ws : Nat → Stream) (a b : List Goroutine)
    (p : Process) : runProcess c ws (a ++ b) p = runProcess c ws b (runProcess c ws a p) := by
  simp [runProcess, List.foldl_append]

theorem runProcess_of_waitReturned (c : Config) (ws : Nat → Stream)
    (sched : List Goroutine) (p : Process) (h : p.waitReturned = true) :
    runProcess c ws sched p = p := by
  induction sched with
  | nil => rfl
  | cons gr sched ih =>
    have : stepProcess c ws p gr = p := by simp [stepProcess, h]
    rw [runProcess_cons, this]
    exact ih

/-- In a running process, the goroutines of a session on whose stream no call
fails take their steps as the session alone would. -/
theorem runProcess_inSession (c : Config) (ws : Nat → Stream) (g i : Nat)
    (hg : g < 2 ^ 31) (hconn : (ws i).connect = none)
    (hsend : ∀ k, k < c.msgsPerGo → (ws i).send k (envelopeOf c) = none)
    (sch : List Thread) (p : Process) (s : Session) (hinv : ProcInv c ws g p)
    (hw : p.waitReturned = false) (ha : p.aborted = false)
    (hs : p.sessions[i]? = some s) :
    (runProcess c ws (inSession i sch) p).sessions[i]? = some (run c (ws i) sch s) ∧
      (runProcess c ws (inSession i sch) p).aborted = false ∧
      (runProcess c ws (inSession i sch) p).waitReturned = false := by
  induction sch generalizing p s with
  | nil => exact ⟨hs, ha, hw⟩
  | cons t sch ih =>
    have hstep := stepProcess_session c ws g p i t s hg hinv hw ha hs
    have hinv1 := procInv_step c ws g p (.session i t) hg hinv
    have hsinv : Inv c (ws i) (step c (ws i) s t) := inv_step c (ws i) s t (hinv.2.1 i s hs)
    have hab := (inv_no_fault c (ws i) _ hsinv hconn hsend).1
    have hlt : i < p.sessions.length := (List.getElem?_eq_some.mp hs).1
    simp only [inSession, List.map_cons, runProcess_cons, run_cons]
    refine ih _ _ hinv1 ?_ ?_ ?_
    · rw [hstep]
      exact hw
    · rw [hstep]
      exact hab
    · rw [hstep]
      exact List.getElem?_set_self hlt
/-- The completion that C7 promises to a session without a fault is cut short
by another session: in the process of two sessions of one message each, every
call on the stream of session 1 succeeds, but once the failed `Send` of session
0 has made its goroutine panic (line 126) the process is aborted, and whatever
is scheduled afterwards session 1 stays as it was started, with no `Send`, no
`Recv` and no `wg.Done()`. -/
theorem fault_free_session_cut_short :
    main 2 2 = .ok ((configOf 1).msgsPerGo, processOf 2 1) ∧
    (streamsSendFailsAt0 1).connect = none ∧
    (∀ k env, (streamsSendFailsAt0 1).send k env = none) ∧
    (∀ k, ∃ msg, (streamsSendFailsAt0 1).recv k = .ok msg ∧
      msg.Status = (configOf 1).cb.Status_SUCCESS) ∧
    (runProcess (configOf 1) streamsSendFailsAt0 (inSession 0 (List.replicate 4 .outer))
      (processOf 2 1)).aborted = true ∧
    (∀ later, (runProcess (configOf 1) streamsSendFailsAt0
        (inSession 0 (List.replicate 4 .outer) ++ later) (processOf 2 1)).sessions[1]?
      = some Session.init) ∧
    sendCount Session.init.trace = 0 ∧ recvCount Session.init.trace = 0 ∧
    wgDoneCount Session.init.trace = 0 ∧ (configOf 1).msgsPerGo = 1 := by
  have hab : (runProcess (configOf 1) streamsSendFailsAt0
      (inSession 0 (List.replicate 4 .outer)) (processOf 2 1)).aborted = true := by decide
  refine ⟨by rfl, rfl, fun _ _ => rfl, fun _ => ⟨⟨200, ""⟩, rfl, rfl⟩, hab, ?_, rfl, rfl, rfl,
    rfl⟩
  intro later
  rw [runProcess_append, runProcess_of_aborted _ _ _ _ hab]
  decide

/-- C7, amended: in a process that `main` started with fewer than `2 ^ 31`
sessions, take a session whose stream opens, whose `Send` calls all succeed and
whose `Recv` calls all return a `SUCCESS` response. At every point of every run
the session has not panicked or returned early, line 120 has printed no error,
and its `Send` and `Recv` calls number at most `msgsPerGo` each, exactly
`msgsPerGo` each once it has called `wg.Done()`. Unless a panic (of another
session) has aborted the process, the session reaches its completion point:
scheduling its goroutines by `sendThenReceive` leaves it with `wg.Done()` called
once, `msgsPerGo` `Send` calls, `msgsPerGo` `Recv` calls and no error printed,
and at the end of its goroutine when `main` has not returned before. -/
theorem session_without_fault (c : Config) (ws : Nat → Stream)
    (messages goroutines i : Nat) (p0 : Process) (sched : List Goroutine)
    (hmain : main messages goroutines = .ok (c.msgsPerGo, p0))
    (hg : goroutines < 2 ^ 31) (hi : i < goroutines)
    (hconn : (ws i).connect = none)
    (hsend : ∀ k, k < c.msgsPerGo → (ws i).send k (envelopeOf c) = none)
    (hrecv : ∀ k, k < c.msgsPerGo →
      ∃ msg, (ws i).recv k = .ok msg ∧ msg.Status = c.cb.Status_SUCCESS) :
    ∃ s, (runProcess c ws sched p0).sessions[i]? = some s ∧
      s.aborted = false ∧ s.outer ≠ .returned ∧ reportedErrors s.trace = [] ∧
      sendCount s.trace ≤ c.msgsPerGo ∧ recvCount s.trace ≤ c.msgsPerGo ∧
      (Event.wgDone ∈ s.trace →
        wgDoneCount s.trace = 1 ∧ sendCount s.trace = c.msgsPerGo ∧
        recvCount s.trace = c.msgsPerGo) ∧
      ((runProcess c ws sched p0).aborted = false →
        ∃ s1, (runProcess c ws (sched ++ inSession i (sendThenReceive c.msgsPerGo))
            p0).sessions[i]? = some s1 ∧
          wgDoneCount s1.trace = 1 ∧ sendCount s1.trace = c.msgsPerGo ∧
          recvCount s1.trace = c.msgsPerGo ∧ reportedErrors s1.trace = [] ∧
          ((runProcess c ws sched p0).waitReturned = false → s1.outer = .exited)) := by
  have hrep : ∀ s, Inv c (ws i) s → reportedErrors s.trace = [] := by
    intro s hs
    rcases reportedErrors_cases c (ws i) s hs with h | ⟨h, -⟩
    · exact h
    · rw [h, errAfter_no_fault c (ws i) hrecv _ (le_refl _)]
      rfl
  have hp0 : p0 = processOf goroutines c.msgsPerGo := by
    rw [main_ok messages goroutines (by omega) hg] at hmain
    have h := Except.ok.inj hmain
    rw [(Prod.mk.inj h).1] at h
    exact (Prod.mk.inj h).2.symm
  subst hp0
  have hP := procInv_run c ws goroutines sched _ hg
    (procInv_processOf c ws goroutines c.msgsPerGo hg)
  rw [runProcess_append]
  generalize runProcess c ws sched (processOf goroutines c.msgsPerGo) = p at hP ⊢
  obtain ⟨hlen, hall, hwg, hret⟩ := hP
  have hlt : i < p.sessions.length := by omega
  have hs : p.sessions[i]? = some p.sessions[i] := List.getElem?_eq_getElem hlt
  have hinv := hall i _ hs
  obtain ⟨h1, h2, h3, h4⟩ := inv_no_fault c (ws i) _ hinv hconn hsend
  refine ⟨p.sessions[i], hs, h1, h2, hrep _ hinv, h3, recvCount_le c (ws i) _ hinv,
    fun hmem => h4 (fun h0 => List.count_eq_zero.mp h0 hmem), ?_⟩
  intro ha
  cases hw : p.waitReturned with
  | true =>
    rw [runProcess_of_waitReturned c ws _ p hw]
    have hzero := hret hw
    have hone := sum_map_eq_length (fun s => wgDoneCount s.trace) p.sessions
      (by
        intro s1 hs1
        obtain ⟨j1, hj1⟩ := List.mem_iff_getElem?.mp hs1
        exact wgDoneCount_le_one c (ws j1) s1 (hall j1 s1 hj1))
      (by
        simp only [Process.doneCalls] at hwg
        omega)
      p.sessions[i] (List.getElem?_mem hs)
    simp only at hone
    obtain ⟨-, h5, h6⟩ := h4 (by omega)
    exact ⟨_, hs, hone, h5, h6, hrep _ hinv, fun h => Bool.noConfusion h⟩
  | false =>
    obtain ⟨hs1, -, -⟩ := runProcess_inSession c ws goroutines i hg hconn hsend
      (sendThenReceive c.msgsPerGo) p _ ⟨hlen, hall, hwg, hret⟩ hw ha hs
    have hinv1 := inv_run c (ws i) (sendThenReceive c.msgsPerGo) _ hinv
    have hexit := completes_without_fault c (ws i) hconn hsend _ hinv
    have hwg1 := wgDoneCount_exited c (ws i) _ hinv1 hexit
    obtain ⟨-, -, -, h5⟩ := inv_no_fault c (ws i) _ hinv1 hconn hsend
    obtain ⟨-, h6, h7⟩ := h5 (by omega)
    exact ⟨_, hs1, hwg1, h6, h7, hrep _ hinv1, fun _ => hexit⟩
theorem session_without_fault_witness :
    ∃ s, (runProcess (configOf 2) streamsNoConnectAt1 [.session 1 .outer, .session 0 .outer]
        (processOf 2 2)).sessions[0]? = some s ∧
      s.aborted = false ∧ s.outer ≠ .returned ∧ reportedErrors s.trace = [] ∧
      sendCount s.trace ≤ (configOf 2).msgsPerGo ∧
      recvCount s.trace ≤ (configOf 2).msgsPerGo ∧
      (Event.wgDone ∈ s.trace →
        wgDoneCount s.trace = 1 ∧ sendCount s.trace = (configOf 2).msgsPerGo ∧
        recvCount s.trace = (configOf 2).msgsPerGo) ∧
      ((runProcess (configOf 2) streamsNoConnectAt1 [.session 1 .outer, .session 0 .outer]
          (processOf 2 2)).aborted = false →
        ∃ s1, (runProcess (configOf 2) streamsNoConnectAt1
            ([.session 1 .outer, .session 0 .outer] ++
              inSession 0 (sendThenReceive (configOf 2).msgsPerGo))
            (processOf 2 2)).sessions[0]? = some s1 ∧
          wgDoneCount s1.trace = 1 ∧ sendCount s1.trace = (configOf 2).msgsPerGo ∧
          recvCount s1.trace = (configOf 2).msgsPerGo ∧ reportedErrors s1.trace = [] ∧
          ((runProcess (configOf 2) streamsNoConnectAt1
              [.session 1 .outer, .session 0 .outer] (processOf 2 2)).waitReturned = false →
            s1.outer = .exited)) :=
  session_without_fault (configOf 2) streamsNoConnectAt1 4 2 0 (processOf 2 2)
    [.session 1 .outer, .session 0 .outer] (by rfl) (by decide) (by decide) rfl
    (fun _ _ => rfl) (fun _ _ => ⟨⟨200, ""⟩, rfl, rfl⟩)

end BroadcastMsg
